import Mathlib

/-!
Verification of the nix-index file database query engine (src/database.rs).

The database is a sequence of front-coded blocks; each decoded block is a
byte buffer of newline-terminated records.  A record is either a file entry
(tag byte f, then NUL, then metadata, then NUL, then the path bytes) or a
package record (tag byte p, then NUL, then the JSON serialization of the
store path).  The query engine greps each block with a rewritten user
pattern, attributes every match to the first package record at or after the
match, re-checks the unmodified user regex on the decoded path, and applies
optional package-name and package-hash filters.

We model a decoded block as a list of records (the grep crate used by the
code is line oriented: a match handed back to database.rs is always a whole
newline-terminated line, with match start and end at line boundaries), a
record as a list of bytes (Nat), and the compiled patterns as boolean
predicates.  All definitions are executable.
-/

namespace NixIndex

/-- One decoded record (a line of a block, without its trailing newline). -/
abbrev Rec := List Nat

/-- A decoded block: the list of newline-terminated records it contains. -/
abbrev Block := List Rec

/-- Errors of the database layer, from enum DatabaseError in database.rs.
The payload of the IO and Grep variants is dropped (not needed here);
the IO variant is called ioErr. -/
inductive DatabaseError where
  | UnsupportedFileType (magic : List Nat)
  | UnsupportedVersion (version : Nat)
  | MissingPackageEntry
  | Frcode
  | EntryParse (bytes : List Nat)
  | StorePathParse (bytes : List Nat)
  | ioErr
  | Grep
deriving DecidableEq, Repr

/-- A store path, from package.rs (not part of the sources given): an opaque
hash string and a human-readable name, both as byte lists.  The origin
field plays no role in the database layer and is omitted. -/
structure StorePath where
  hash : List Nat
  name : List Nat
deriving DecidableEq, Repr

/-- Modelled from the spec: the payload of a package record is the JSON
serialization of the store path (package.rs is not among the sources).
We abstract the JSON object to an injective flat encoding: hash bytes, one
separator byte 32, name bytes.  A payload without the separator fails to
parse, which models serde failure (DatabaseError::StorePathParse). -/
def parseStorePath : List Nat → Option StorePath
  | [] => none
  | b :: rest =>
    if b = 32 then some ⟨[], rest⟩
    else (parseStorePath rest).map (fun p => ⟨b :: p.hash, p.name⟩)

/-- A file node, from files.rs (not part of the sources given): regular file
with size and executable flag, symlink with target, or directory with size. -/
inductive FileNode where
  | regular (size : Nat) (executable : Bool)
  | symlink (target : List Nat)
  | directory (size : Nat)
deriving DecidableEq, Repr

/-- A file tree entry: a path (byte list) plus its node. -/
structure FileTreeEntry where
  path : List Nat
  node : FileNode
deriving DecidableEq, Repr

/-- Split a byte list at its first NUL byte; none when no NUL occurs. -/
def splitAtNul : List Nat → Option (List Nat × List Nat)
  | [] => none
  | b :: rest =>
    if b = 0 then some ([], rest)
    else (splitAtNul rest).map (fun p => (b :: p.1, p.2))

/-- Parse a nonempty run of decimal digit bytes. -/
def parseDigitsAux : List Nat → Nat → Option Nat
  | [], acc => some acc
  | d :: ds, acc =>
    if 48 ≤ d ∧ d ≤ 57 then parseDigitsAux ds (acc * 10 + (d - 48)) else none

/-- Parse a decimal number from bytes; the empty list is rejected. -/
def parseDigits : List Nat → Option Nat
  | [] => none
  | l => parseDigitsAux l 0

/-- Modelled from the spec: the metadata section of a file record carries
the file type (one of r, x, s, d) and, for regulars and directories, the
size in decimal; for symlinks the target bytes follow the type byte. -/
def decodeMeta : List Nat → Option FileNode
  | 114 :: ds => (parseDigits ds).map (fun n => FileNode.regular n false)
  | 120 :: ds => (parseDigits ds).map (fun n => FileNode.regular n true)
  | 100 :: ds => (parseDigits ds).map FileNode.directory
  | 115 :: t => some (FileNode.symlink t)
  | _ => none

/-- Modelled from the spec: FileTreeEntry::decode from files.rs (not among
the sources).  A file record is the tag byte f (102), a NUL, the metadata,
a NUL, and the path bytes; anything else fails to decode. -/
def FileTreeEntry.decode (bs : List Nat) : Option FileTreeEntry :=
  match bs with
  | 102 :: 0 :: rest =>
    (splitAtNul rest).bind fun p => (decodeMeta p.1).map (fun n => ⟨p.2, n⟩)
  | _ => none

/-- The pattern ^p NUL of package records: grep hands back whole lines, so
at the record level it holds exactly of records starting with p (112), NUL. -/
def isPackageRecord : Rec → Bool
  | 112 :: 0 :: _ => true
  | _ => false

/-- The record of a block at index j (the empty record when out of range). -/
def getRec (block : Block) (j : Nat) : Rec :=
  block.getD j []

/-- The compiled patterns and bounds a ReaderIter carries: the rewritten
grep pattern (line-level: does this record contain a match), the unmodified
user regex run on path bytes, and the optional package-name and
package-hash bounds. -/
structure QueryPatterns where
  pattern : Rec → Bool
  exactPattern : List Nat → Bool
  packageNamePattern : Option (List Nat → Bool)
  packageHash : Option (List Nat)

/-- should_search_package: tests a store path against the name and hash
bounds, passing when a bound is absent. -/
def shouldSearch (pats : QueryPatterns) (pkg : StorePath) : Bool :=
  (match pats.packageNamePattern with
   | none => true
   | some r => r pkg.name) &&
  (match pats.packageHash with
   | none => true
   | some h => h == pkg.hash)

/-- Drop the package-name and package-hash bounds of a query. -/
def stripBounds (pats : QueryPatterns) : QueryPatterns :=
  { pats with packageNamePattern := none, packageHash := none }

/-- read_match at the record level: the first index j at or after i whose
record satisfies the predicate. -/
def findIdxFrom (p : Rec → Bool) (block : Block) (i : Nat) : Option Nat :=
  if h : i < block.length then
    if p (getRec block i) then some i else findIdxFrom p block (i + 1)
  else none
termination_by block.length - i

/-- State of the find_package closure of fill_buf: the cached package with
its end position, and the no_more_package flag. -/
structure FPState where
  cache : Option (StorePath × Nat)
  noMore : Bool
deriving DecidableEq, Repr

/-- The initial find_package state of each block. -/
def FPState.init : FPState := ⟨none, false⟩

/-- The scan part of find_package: look for the next package record at or
after itemEnd, parse its payload, and update cache and flag. -/
def findPackageScan (block : Block) (st : FPState) (itemEnd : Nat) :
    Except DatabaseError (Option (StorePath × Nat) × FPState) :=
  if st.noMore then .ok (none, { st with noMore := true })
  else
    match findIdxFrom isPackageRecord block itemEnd with
    | none => .ok (none, { st with noMore := true })
    | some j =>
      match parseStorePath ((getRec block j).drop 2) with
      | none => .error (.StorePathParse ((getRec block j).drop 2))
      | some pkg => .ok (some (pkg, j + 1), { st with cache := some (pkg, j + 1) })

/-- find_package from fill_buf: answer from the cache when the queried
position lies before the cached package end, otherwise scan forward. -/
def findPackage (block : Block) (st : FPState) (itemEnd : Nat) :
    Except DatabaseError (Option (StorePath × Nat) × FPState) :=
  match st.cache with
  | some (pkg, e) =>
    if itemEnd < e then .ok (some (pkg, e), st)
    else findPackageScan block st itemEnd
  | none => findPackageScan block st itemEnd

/-- The uncached forward scan: the first package record at or after i,
decoded, together with the position just after it. -/
def pureFindPackage (block : Block) (i : Nat) :
    Except DatabaseError (Option (StorePath × Nat)) :=
  match findIdxFrom isPackageRecord block i with
  | none => .ok none
  | some j =>
    match parseStorePath ((getRec block j).drop 2) with
    | none => .error (.StorePathParse ((getRec block j).drop 2))
    | some pkg => .ok (some (pkg, j + 1))

theorem findIdxFrom_bounds {p : Rec → Bool} {block : Block} {i j : Nat}
    (h : findIdxFrom p block i = some j) :
    i ≤ j ∧ j < block.length ∧ p (getRec block j) = true := by
  rw [findIdxFrom] at h
  by_cases hi : i < block.length
  · rw [dif_pos hi] at h
    by_cases hp : p (getRec block i) = true
    · rw [if_pos hp] at h
      cases h
      exact ⟨Nat.le_refl _, hi, hp⟩
    · rw [if_neg hp] at h
      have hrec := findIdxFrom_bounds h
      exact ⟨Nat.le_of_succ_le hrec.1, hrec.2.1, hrec.2.2⟩
  · rw [dif_neg hi] at h
    cases h
termination_by block.length - i
decreasing_by omega

theorem findIdxFrom_min {p : Rec → Bool} {block : Block} {i j : Nat}
    (h : findIdxFrom p block i = some j) :
    ∀ k, i ≤ k → k < j → p (getRec block k) = false := by
  intro k hik hkj
  rw [findIdxFrom] at h
  by_cases hi : i < block.length
  · rw [dif_pos hi] at h
    by_cases hp : p (getRec block i) = true
    · rw [if_pos hp] at h
      cases h
      omega
    · rw [if_neg hp] at h
      rcases Nat.eq_or_lt_of_le hik with rfl | hlt
      · exact Bool.eq_false_iff.mpr hp
      · exact findIdxFrom_min h k hlt hkj
  · rw [dif_neg hi] at h
    cases h
termination_by block.length - i
decreasing_by omega

theorem findIdxFrom_none {p : Rec → Bool} {block : Block} {i : Nat}
    (h : findIdxFrom p block i = none) :
    ∀ k, i ≤ k → k < block.length → p (getRec block k) = false := by
  intro k hik hk
  rw [findIdxFrom] at h
  by_cases hi : i < block.length
  · rw [dif_pos hi] at h
    by_cases hp : p (getRec block i) = true
    · rw [if_pos hp] at h
      cases h
    · rw [if_neg hp] at h
      rcases Nat.eq_or_lt_of_le hik with rfl | hlt
      · exact Bool.eq_false_iff.mpr hp
      · exact findIdxFrom_none h k hlt hk
  · omega
termination_by block.length - i
decreasing_by omega

theorem findIdxFrom_of {p : Rec → Bool} {block : Block} {i j : Nat}
    (hij : i ≤ j) (hj : j < block.length) (hp : p (getRec block j) = true)
    (hmin : ∀ k, i ≤ k → k < j → p (getRec block k) = false) :
    findIdxFrom p block i = some j := by
  rw [findIdxFrom]
  have hi : i < block.length := Nat.lt_of_le_of_lt hij hj
  rw [dif_pos hi]
  rcases Nat.eq_or_lt_of_le hij with rfl | hlt
  · rw [if_pos hp]
  · have hpi : p (getRec block i) = false := hmin i (Nat.le_refl _) hlt
    rw [if_neg (by rw [hpi]; simp)]
    exact findIdxFrom_of hlt hj hp (fun k hk1 hk2 => hmin k (Nat.le_of_succ_le hk1) hk2)
termination_by block.length - i
decreasing_by omega

theorem findIdxFrom_none_of {p : Rec → Bool} {block : Block} {i : Nat}
    (hmin : ∀ k, i ≤ k → k < block.length → p (getRec block k) = false) :
    findIdxFrom p block i = none := by
  rw [findIdxFrom]
  by_cases hi : i < block.length
  · rw [dif_pos hi]
    have hpi : p (getRec block i) = false := hmin i (Nat.le_refl _) hi
    rw [if_neg (by rw [hpi]; simp)]
    exact findIdxFrom_none_of (fun k hk1 hk2 => hmin k (Nat.le_of_succ_le hk1) hk2)
  · rw [dif_neg hi]
termination_by block.length - i
decreasing_by omega

theorem findIdxFrom_mono_some {p : Rec → Bool} {block : Block} {i i' j : Nat}
    (h : findIdxFrom p block i = some j) (hii : i ≤ i') (hij : i' ≤ j) :
    findIdxFrom p block i' = some j := by
  obtain ⟨-, hj, hp⟩ := findIdxFrom_bounds h
  exact findIdxFrom_of hij hj hp
    (fun k hk1 hk2 => findIdxFrom_min h k (Nat.le_trans hii hk1) hk2)

theorem findIdxFrom_mono_none {p : Rec → Bool} {block : Block} {i i' : Nat}
    (h : findIdxFrom p block i = none) (hii : i ≤ i') :
    findIdxFrom p block i' = none :=
  findIdxFrom_none_of (fun k hk1 hk2 => findIdxFrom_none h k (Nat.le_trans hii hk1) hk2)

theorem findIdxFrom_self {p : Rec → Bool} {block : Block} {j : Nat}
    (hj : j < block.length) (hp : p (getRec block j) = true) :
    findIdxFrom p block j = some j :=
  findIdxFrom_of (Nat.le_refl _) hj hp (fun k hk1 hk2 => absurd (Nat.lt_of_le_of_lt hk1 hk2) (Nat.lt_irrefl _))

theorem pureFindPackage_some {block : Block} {i : Nat} {pkg : StorePath} {e : Nat}
    (h : pureFindPackage block i = .ok (some (pkg, e))) :
    i < e ∧ e ≤ block.length ∧ isPackageRecord (getRec block (e - 1)) = true ∧
      parseStorePath ((getRec block (e - 1)).drop 2) = some pkg := by
  rw [pureFindPackage] at h
  cases hidx : findIdxFrom isPackageRecord block i with
  | none => simp [hidx] at h
  | some j =>
    simp only [hidx] at h
    obtain ⟨hij, hj, hp⟩ := findIdxFrom_bounds hidx
    cases hparse : parseStorePath ((getRec block j).drop 2) with
    | none => simp [hparse] at h
    | some pkg' =>
      simp only [hparse, Except.ok.injEq, Option.some.injEq, Prod.mk.injEq] at h
      obtain ⟨rfl, rfl⟩ := h
      refine ⟨by omega, by omega, ?_, ?_⟩
      · simpa using hp
      · simpa using hparse

theorem pureFindPackage_mono {block : Block} {i i' : Nat} {pkg : StorePath} {e : Nat}
    (h : pureFindPackage block i = .ok (some (pkg, e))) (hii : i ≤ i') (hie : i' < e) :
    pureFindPackage block i' = .ok (some (pkg, e)) := by
  rw [pureFindPackage] at h ⊢
  cases hidx : findIdxFrom isPackageRecord block i with
  | none => simp [hidx] at h
  | some j =>
    simp only [hidx] at h
    cases hparse : parseStorePath ((getRec block j).drop 2) with
    | none => simp [hparse] at h
    | some pkg' =>
      simp only [hparse, Except.ok.injEq, Option.some.injEq, Prod.mk.injEq] at h
      obtain ⟨rfl, rfl⟩ := h
      rw [findIdxFrom_mono_some hidx hii (by omega)]
      simp only [hparse]

theorem pureFindPackage_none_mono {block : Block} {i i' : Nat}
    (h : pureFindPackage block i = .ok none) (hii : i ≤ i') :
    pureFindPackage block i' = .ok none := by
  rw [pureFindPackage] at h ⊢
  cases hidx : findIdxFrom isPackageRecord block i with
  | none => rw [findIdxFrom_mono_none hidx hii]
  | some j =>
    simp only [hidx] at h
    cases hparse : parseStorePath ((getRec block j).drop 2) with
    | none => simp [hparse] at h
    | some pkg' => simp [hparse] at h

theorem findPackageScan_some_lt {block : Block} {st st' : FPState} {i e : Nat} {pkg : StorePath}
    (h : findPackageScan block st i = .ok (some (pkg, e), st')) : i < e := by
  rw [findPackageScan] at h
  by_cases hnm : st.noMore = true
  · rw [if_pos hnm] at h
    simp at h
  · rw [if_neg hnm] at h
    cases hidx : findIdxFrom isPackageRecord block i with
    | none => simp [hidx] at h
    | some j =>
      simp only [hidx] at h
      obtain ⟨hij, -, -⟩ := findIdxFrom_bounds hidx
      cases hparse : parseStorePath ((getRec block j).drop 2) with
      | none => simp [hparse] at h
      | some pkg' =>
        simp only [hparse, Except.ok.injEq, Prod.mk.injEq, Option.some.injEq] at h
        obtain ⟨⟨-, he⟩, -⟩ := h
        omega

theorem findPackage_some_lt {block : Block} {st st' : FPState} {i e : Nat} {pkg : StorePath}
    (h : findPackage block st i = .ok (some (pkg, e), st')) : i < e := by
  rw [findPackage] at h
  cases hc : st.cache with
  | none =>
    rw [hc] at h
    exact findPackageScan_some_lt h
  | some pe =>
    obtain ⟨pkg0, e0⟩ := pe
    rw [hc] at h
    simp only [] at h
    by_cases hlt : i < e0
    · rw [if_pos hlt] at h
      simp only [Except.ok.injEq, Prod.mk.injEq, Option.some.injEq] at h
      obtain ⟨⟨-, he⟩, -⟩ := h
      omega
    · rw [if_neg hlt] at h
      exact findPackageScan_some_lt h

/-- Validity of a find_package state for all future queries at positions
at least m: a cached package answers exactly as the uncached scan would,
and the no_more_package flag is only set when the scan would fail. -/
def FPValid (block : Block) (m : Nat) (st : FPState) : Prop :=
  (∀ pkg e, st.cache = some (pkg, e) → ∀ i, m ≤ i → i < e →
     pureFindPackage block i = .ok (some (pkg, e))) ∧
  (st.noMore = true → ∀ i, m ≤ i → pureFindPackage block i = .ok none)

theorem FPValid_init (block : Block) (m : Nat) : FPValid block m FPState.init := by
  constructor
  · intro pkg e hc
    cases hc
  · intro hnm
    cases hnm

theorem FPValid_mono {block : Block} {m m' : Nat} {st : FPState}
    (hv : FPValid block m st) (hmm : m ≤ m') : FPValid block m' st := by
  constructor
  · intro pkg e hc i hmi hie
    exact hv.1 pkg e hc i (Nat.le_trans hmm hmi) hie
  · intro hnm i hmi
    exact hv.2 hnm i (Nat.le_trans hmm hmi)

theorem findPackageScan_pure {block : Block} {m : Nat} {st : FPState} {i : Nat}
    (hv : FPValid block m st) (hmi : m ≤ i)
    (hcm : ∀ pkg e, st.cache = some (pkg, e) → e ≤ i) :
    (∀ err, pureFindPackage block i = .error err → findPackageScan block st i = .error err) ∧
    (∀ r, pureFindPackage block i = .ok r →
      ∃ st', findPackageScan block st i = .ok (r, st') ∧ FPValid block i st') := by
  by_cases hnm : st.noMore = true
  · have hscan : findPackageScan block st i = .ok (none, { st with noMore := true }) := by
      rw [findPackageScan, if_pos hnm]
    have hpure : pureFindPackage block i = .ok none := hv.2 hnm i hmi
    constructor
    · intro err herr
      rw [hpure] at herr
      exact absurd herr (by simp)
    · intro r hr
      rw [hpure] at hr
      injection hr with hr
      subst hr
      refine ⟨_, hscan, ?_, ?_⟩
      · intro pkg e hc i' hii' hie'
        have he := hcm pkg e hc
        omega
      · intro _ i' hii'
        exact pureFindPackage_none_mono hpure hii'
  · cases hidx : findIdxFrom isPackageRecord block i with
    | none =>
      have hscan : findPackageScan block st i = .ok (none, { st with noMore := true }) := by
        rw [findPackageScan, if_neg hnm, hidx]
      have hpure : pureFindPackage block i = .ok none := by
        rw [pureFindPackage, hidx]
      constructor
      · intro err herr
        rw [hpure] at herr
        exact absurd herr (by simp)
      · intro r hr
        rw [hpure] at hr
        injection hr with hr
        subst hr
        refine ⟨_, hscan, ?_, ?_⟩
        · intro pkg e hc i' hii' hie'
          have he := hcm pkg e hc
          omega
        · intro _ i' hii'
          exact pureFindPackage_none_mono hpure hii'
    | some j =>
      cases hparse : parseStorePath ((getRec block j).drop 2) with
      | none =>
        have hscan : findPackageScan block st i =
            .error (.StorePathParse ((getRec block j).drop 2)) := by
          rw [findPackageScan, if_neg hnm, hidx]
          simp only [hparse]
        have hpure : pureFindPackage block i =
            .error (.StorePathParse ((getRec block j).drop 2)) := by
          rw [pureFindPackage, hidx]
          simp only [hparse]
        constructor
        · intro err herr
          rw [hpure] at herr
          injection herr with herr
          subst herr
          exact hscan
        · intro r hr
          rw [hpure] at hr
          exact absurd hr (by simp)
      | some pkg =>
        have hscan : findPackageScan block st i =
            .ok (some (pkg, j + 1), { st with cache := some (pkg, j + 1) }) := by
          rw [findPackageScan, if_neg hnm, hidx]
          simp only [hparse]
        have hpure : pureFindPackage block i = .ok (some (pkg, j + 1)) := by
          rw [pureFindPackage, hidx]
          simp only [hparse]
        constructor
        · intro err herr
          rw [hpure] at herr
          exact absurd herr (by simp)
        · intro r hr
          rw [hpure] at hr
          injection hr with hr
          subst hr
          refine ⟨_, hscan, ?_, ?_⟩
          · intro pkg' e' hc i' hii' hie'
            simp only [Option.some.injEq, Prod.mk.injEq] at hc
            obtain ⟨rfl, rfl⟩ := hc
            exact pureFindPackage_mono hpure hii' hie'
          · intro hnm2 i' hii'
            simp only [] at hnm2
            exact absurd hnm2 hnm

theorem findPackage_pure {block : Block} {m : Nat} {st : FPState} {i : Nat}
    (hv : FPValid block m st) (hmi : m ≤ i) :
    (∀ err, pureFindPackage block i = .error err → findPackage block st i = .error err) ∧
    (∀ r, pureFindPackage block i = .ok r →
      ∃ st', findPackage block st i = .ok (r, st') ∧ FPValid block i st') := by
  cases hc : st.cache with
  | none =>
    have heq : findPackage block st i = findPackageScan block st i := by
      rw [findPackage, hc]
    have base := findPackageScan_pure hv hmi
      (fun pkg e hce => by rw [hc] at hce; cases hce)
    constructor
    · intro err herr
      rw [heq]
      exact base.1 err herr
    · intro r hr
      rw [heq]
      exact base.2 r hr
  | some pe =>
    obtain ⟨pkg, e⟩ := pe
    by_cases hlt : i < e
    · have hpure : pureFindPackage block i = .ok (some (pkg, e)) := hv.1 pkg e hc i hmi hlt
      have heq : findPackage block st i = .ok (some (pkg, e), st) := by
        rw [findPackage, hc]
        simp only [if_pos hlt]
      constructor
      · intro err herr
        rw [hpure] at herr
        exact absurd herr (by simp)
      · intro r hr
        rw [hpure] at hr
        injection hr with hr
        subst hr
        exact ⟨st, heq, FPValid_mono hv hmi⟩
    · have heq : findPackage block st i = findPackageScan block st i := by
        rw [findPackage, hc]
        simp only [if_neg hlt]
      have base := findPackageScan_pure hv hmi
        (fun pkg' e' hce => by
          rw [hc] at hce
          simp only [Option.some.injEq, Prod.mk.injEq] at hce
          obtain ⟨-, rfl⟩ := hce
          omega)
      constructor
      · intro err herr
        rw [heq]
        exact base.1 err herr
      · intro r hr
        rw [heq]
        exact base.2 r hr

/-- The match-processing loop of fill_buf, over one block, from scan
position pos, with the current find_package state st.  Returns the entries
pushed to found (in push order), the entries pushed to
found_without_package (in push order), and the error that aborted the
loop, if any; entries pushed before the error are kept, as in the Rust
code, where the vectors are mutated before the error propagates. -/
def scanLoopP (pats : QueryPatterns) (block : Block) (pos : Nat) (st : FPState) :
    List (StorePath × FileTreeEntry) × List FileTreeEntry × Option DatabaseError :=
  match hidx : findIdxFrom pats.pattern block pos with
  | none => ([], [], none)
  | some j =>
    if isPackageRecord (getRec block j) then scanLoopP pats block (j + 1) st
    else
      match hfp : findPackage block st (j + 1) with
      | .error e => ([], [], some e)
      | .ok (some (pkg, e), st1) =>
        if shouldSearch pats pkg then
          match FileTreeEntry.decode (getRec block j) with
          | none => ([], [], some (.EntryParse (getRec block j)))
          | some entry =>
            if pats.exactPattern entry.path then
              match findPackage block st1 (j + 1) with
              | .error e2 => ([], [], some e2)
              | .ok (none, st2) =>
                let r := scanLoopP pats block (j + 1) st2
                (r.1, entry :: r.2.1, r.2.2)
              | .ok (some (pkg2, _), st2) =>
                let r := scanLoopP pats block (j + 1) st2
                ((pkg2, entry) :: r.1, r.2.1, r.2.2)
            else scanLoopP pats block (j + 1) st1
        else scanLoopP pats block e st1
      | .ok (none, st1) =>
        match FileTreeEntry.decode (getRec block j) with
        | none => ([], [], some (.EntryParse (getRec block j)))
        | some entry =>
          if pats.exactPattern entry.path then
            match findPackage block st1 (j + 1) with
            | .error e2 => ([], [], some e2)
            | .ok (none, st2) =>
              let r := scanLoopP pats block (j + 1) st2
              (r.1, entry :: r.2.1, r.2.2)
            | .ok (some (pkg2, _), st2) =>
              let r := scanLoopP pats block (j + 1) st2
              ((pkg2, entry) :: r.1, r.2.1, r.2.2)
          else scanLoopP pats block (j + 1) st1
termination_by block.length - pos
decreasing_by
  all_goals
    first
    | (have hb := findIdxFrom_bounds hidx
       omega)
    | (have hb := findIdxFrom_bounds hidx
       have hlt := findPackage_some_lt hfp
       omega)

/-- The uncached version of the scan loop: find_package replaced by the
pure forward scan from the queried offset. -/
def scanPure (pats : QueryPatterns) (block : Block) (pos : Nat) :
    List (StorePath × FileTreeEntry) × List FileTreeEntry × Option DatabaseError :=
  match hidx : findIdxFrom pats.pattern block pos with
  | none => ([], [], none)
  | some j =>
    if isPackageRecord (getRec block j) then scanPure pats block (j + 1)
    else
      match hfp : pureFindPackage block (j + 1) with
      | .error e => ([], [], some e)
      | .ok (some (pkg, e)) =>
        if shouldSearch pats pkg then
          match FileTreeEntry.decode (getRec block j) with
          | none => ([], [], some (.EntryParse (getRec block j)))
          | some entry =>
            if pats.exactPattern entry.path then
              let r := scanPure pats block (j + 1)
              ((pkg, entry) :: r.1, r.2.1, r.2.2)
            else scanPure pats block (j + 1)
        else scanPure pats block e
      | .ok none =>
        match FileTreeEntry.decode (getRec block j) with
        | none => ([], [], some (.EntryParse (getRec block j)))
        | some entry =>
          if pats.exactPattern entry.path then
            let r := scanPure pats block (j + 1)
            (r.1, entry :: r.2.1, r.2.2)
          else scanPure pats block (j + 1)
termination_by block.length - pos
decreasing_by
  all_goals
    first
    | (have hb := findIdxFrom_bounds hidx
       omega)
    | (have hb := findIdxFrom_bounds hidx
       have hlt := (pureFindPackage_some hfp).1
       omega)

/-- One iteration of the block loop of fill_buf: resolve pending orphans
against the first package record of the freshly decoded block, then run
the scan loop.  Returns found pushes, the new found_without_package, and
the aborting error, if any. -/
def processBlockP (pats : QueryPatterns) (block : Block) (orphans : List FileTreeEntry) :
    List (StorePath × FileTreeEntry) × List FileTreeEntry × Option DatabaseError :=
  if orphans.isEmpty then scanLoopP pats block 0 FPState.init
  else
    match findPackage block FPState.init 0 with
    | .error e => ([], orphans, some e)
    | .ok (none, st) =>
      let r := scanLoopP pats block 0 st
      (r.1, orphans ++ r.2.1, r.2.2)
    | .ok (some (pkg, e), st) =>
      if shouldSearch pats pkg then
        let r := scanLoopP pats block 0 st
        (orphans.map (fun en => (pkg, en)) ++ r.1, r.2.1, r.2.2)
      else scanLoopP pats block e st

/-- The collecting semantics of a whole query run: the found entries of
every block in stream order, stopping at the first error.  When the input
is exhausted the run ends (the code returns Ok on an empty block, even
with orphans still buffered). -/
def runQueryP (pats : QueryPatterns) :
    List Block → List FileTreeEntry →
    List (StorePath × FileTreeEntry) × Option DatabaseError
  | [], _ => ([], none)
  | b :: rest, orphans =>
    match processBlockP pats b orphans with
    | (f, _, some e) => (f, some e)
    | (f, o, none) => (f ++ (runQueryP pats rest o).1, (runQueryP pats rest o).2)

/-- The mutable state of a ReaderIter: the blocks not yet decoded, the
found buffer (in Vec push order, so pop takes the last element) and the
found_without_package buffer. -/
structure IterState where
  blocks : List Block
  found : List (StorePath × FileTreeEntry)
  foundWithoutPackage : List FileTreeEntry
deriving DecidableEq, Repr

/-- fill_buf: decode and process blocks until found is nonempty or the end
of the input is reached; an error is returned alongside the state reached
so far (the Rust code mutates the buffers in place before propagating). -/
def fillBuf (pats : QueryPatterns) (s : IterState) : IterState × Option DatabaseError :=
  if s.found.isEmpty then
    match hb : s.blocks with
    | [] => (s, none)
    | b :: rest =>
      match processBlockP pats b s.foundWithoutPackage with
      | (f, o, some e) => (⟨rest, s.found ++ f, o⟩, some e)
      | (f, o, none) => fillBuf pats ⟨rest, s.found ++ f, o⟩
  else (s, none)
termination_by s.blocks.length
decreasing_by simp [hb]

/-- Iterator::next for ReaderIter: fill the buffer, yield an error as the
current item if one occurred, otherwise pop the last found entry; none
signals the end of the iteration. -/
def next (pats : QueryPatterns) (s : IterState) :
    IterState × Option (Except DatabaseError (StorePath × FileTreeEntry)) :=
  match fillBuf pats s with
  | (s1, some e) => (s1, some (.error e))
  | (s1, none) =>
    match s1.found.getLast? with
    | none => (s1, none)
    | some x => (⟨s1.blocks, s1.found.dropLast, s1.foundWithoutPackage⟩, some (.ok x))

/-- The initial iterator state for a database given as a list of blocks. -/
def initState (blocks : List Block) : IterState := ⟨blocks, [], []⟩

/-- The supported database format version (FORMAT_VERSION in database.rs). -/
def FORMAT_VERSION : Nat := 1

/-- The nix-index database magic, the bytes of NIXI (FILE_MAGIC). -/
def FILE_MAGIC : List Nat := [78, 73, 88, 73]

/-- A little-endian unsigned integer from bytes (least significant first). -/
def leU64 (bs : List Nat) : Nat :=
  bs.foldr (fun b acc => acc * 256 + b) 0

/-- Reader::open on the raw file bytes: check the 4 magic bytes, then the
8-byte little-endian version, and hand the remainder to the decompressor
(modelled by returning the remaining bytes).  A file too short to contain
the header fails with an I/O error (read_exact). -/
def openDb (bs : List Nat) : Except DatabaseError (List Nat) :=
  if bs.length < 4 then .error .ioErr
  else if bs.take 4 ≠ FILE_MAGIC then .error (.UnsupportedFileType (bs.take 4))
  else if bs.length < 12 then .error .ioErr
  else if leU64 ((bs.drop 4).take 8) ≠ FORMAT_VERSION then
    .error (.UnsupportedVersion (leU64 ((bs.drop 4).take 8)))
  else .ok (bs.drop 12)

theorem scanPure_stop {pats : QueryPatterns} {block : Block} {pos : Nat}
    (hidx : findIdxFrom pats.pattern block pos = none) :
    scanPure pats block pos = ([], [], none) := by
  rw [scanPure.eq_def]
  split
  · rfl
  · rename_i j hj
    rw [hidx] at hj
    cases hj

theorem scanPure_pkgrec {pats : QueryPatterns} {block : Block} {pos j : Nat}
    (hidx : findIdxFrom pats.pattern block pos = some j)
    (hrec : isPackageRecord (getRec block j) = true) :
    scanPure pats block pos = scanPure pats block (j + 1) := by
  rw [scanPure.eq_def]
  split
  · rename_i hj
    rw [hidx] at hj
    cases hj
  · rename_i j2 hj
    rw [hidx] at hj
    injection hj with hj
    subst hj
    rw [if_pos hrec]

theorem scanPure_fp_error {pats : QueryPatterns} {block : Block} {pos j : Nat}
    {err : DatabaseError}
    (hidx : findIdxFrom pats.pattern block pos = some j)
    (hrec : isPackageRecord (getRec block j) = false)
    (hfp : pureFindPackage block (j + 1) = .error err) :
    scanPure pats block pos = ([], [], some err) := by
  rw [scanPure.eq_def]
  split
  · rename_i hj
    rw [hidx] at hj
    cases hj
  · rename_i j2 hj
    rw [hidx] at hj
    injection hj with hj
    subst hj
    rw [if_neg (by rw [hrec]; simp)]
    split
    · rename_i e2 he
      rw [hfp] at he
      injection he with he
      subst he
      rfl
    · rename_i pkg2 e2 he
      rw [hfp] at he
      simp at he
    · rename_i he
      rw [hfp] at he
      simp at he

theorem scanPure_reject {pats : QueryPatterns} {block : Block} {pos j e : Nat}
    {pkg : StorePath}
    (hidx : findIdxFrom pats.pattern block pos = some j)
    (hrec : isPackageRecord (getRec block j) = false)
    (hfp : pureFindPackage block (j + 1) = .ok (some (pkg, e)))
    (hpass : shouldSearch pats pkg = false) :
    scanPure pats block pos = scanPure pats block e := by
  rw [scanPure.eq_def]
  split
  · rename_i hj
    rw [hidx] at hj
    cases hj
  · rename_i j2 hj
    rw [hidx] at hj
    injection hj with hj
    subst hj
    rw [if_neg (by rw [hrec]; simp)]
    split
    · rename_i e2 he
      rw [hfp] at he
      simp at he
    · rename_i pkg2 e2 he
      rw [hfp] at he
      simp only [Except.ok.injEq, Option.some.injEq, Prod.mk.injEq] at he
      obtain ⟨rfl, rfl⟩ := he
      rw [if_neg (by rw [hpass]; simp)]
    · rename_i he
      rw [hfp] at he
      simp at he

theorem scanPure_accept_badentry {pats : QueryPatterns} {block : Block} {pos j e : Nat}
    {pkg : StorePath}
    (hidx : findIdxFrom pats.pattern block pos = some j)
    (hrec : isPackageRecord (getRec block j) = false)
    (hfp : pureFindPackage block (j + 1) = .ok (some (pkg, e)))
    (hpass : shouldSearch pats pkg = true)
    (hdec : FileTreeEntry.decode (getRec block j) = none) :
    scanPure pats block pos = ([], [], some (.EntryParse (getRec block j))) := by
  rw [scanPure.eq_def]
  split
  · rename_i hj
    rw [hidx] at hj
    cases hj
  · rename_i j2 hj
    rw [hidx] at hj
    injection hj with hj
    subst hj
    rw [if_neg (by rw [hrec]; simp)]
    split
    · rename_i e2 he
      rw [hfp] at he
      simp at he
    · rename_i pkg2 e2 he
      rw [hfp] at he
      simp only [Except.ok.injEq, Option.some.injEq, Prod.mk.injEq] at he
      obtain ⟨rfl, rfl⟩ := he
      rw [if_pos hpass]
      simp only [hdec]
    · rename_i he
      rw [hfp] at he
      simp at he

theorem scanPure_accept_noexact {pats : QueryPatterns} {block : Block} {pos j e : Nat}
    {pkg : StorePath} {entry : FileTreeEntry}
    (hidx : findIdxFrom pats.pattern block pos = some j)
    (hrec : isPackageRecord (getRec block j) = false)
    (hfp : pureFindPackage block (j + 1) = .ok (some (pkg, e)))
    (hpass : shouldSearch pats pkg = true)
    (hdec : FileTreeEntry.decode (getRec block j) = some entry)
    (hex : pats.exactPattern entry.path = false) :
    scanPure pats block pos = scanPure pats block (j + 1) := by
  rw [scanPure.eq_def]
  split
  · rename_i hj
    rw [hidx] at hj
    cases hj
  · rename_i j2 hj
    rw [hidx] at hj
    injection hj with hj
    subst hj
    rw [if_neg (by rw [hrec]; simp)]
    split
    · rename_i e2 he
      rw [hfp] at he
      simp at he
    · rename_i pkg2 e2 he
      rw [hfp] at he
      simp only [Except.ok.injEq, Option.some.injEq, Prod.mk.injEq] at he
      obtain ⟨rfl, rfl⟩ := he
      rw [if_pos hpass]
      simp only [hdec]
      rw [if_neg (by rw [hex]; simp)]
    · rename_i he
      rw [hfp] at he
      simp at he

theorem scanPure_accept_found {pats : QueryPatterns} {block : Block} {pos j e : Nat}
    {pkg : StorePath} {entry : FileTreeEntry}
    (hidx : findIdxFrom pats.pattern block pos = some j)
    (hrec : isPackageRecord (getRec block j) = false)
    (hfp : pureFindPackage block (j + 1) = .ok (some (pkg, e)))
    (hpass : shouldSearch pats pkg = true)
    (hdec : FileTreeEntry.decode (getRec block j) = some entry)
    (hex : pats.exactPattern entry.path = true) :
    scanPure pats block pos =
      ((pkg, entry) :: (scanPure pats block (j + 1)).1,
       (scanPure pats block (j + 1)).2.1, (scanPure pats block (j + 1)).2.2) := by
  rw [scanPure.eq_def]
  split
  · rename_i hj
    rw [hidx] at hj
    cases hj
  · rename_i j2 hj
    rw [hidx] at hj
    injection hj with hj
    subst hj
    rw [if_neg (by rw [hrec]; simp)]
    split
    · rename_i e2 he
      rw [hfp] at he
      simp at he
    · rename_i pkg2 e2 he
      rw [hfp] at he
      simp only [Except.ok.injEq, Option.some.injEq, Prod.mk.injEq] at he
      obtain ⟨rfl, rfl⟩ := he
      rw [if_pos hpass]
      simp only [hdec]
      rw [if_pos hex]
    · rename_i he
      rw [hfp] at he
      simp at he

theorem scanPure_nopkg_badentry {pats : QueryPatterns} {block : Block} {pos j : Nat}
    (hidx : findIdxFrom pats.pattern block pos = some j)
    (hrec : isPackageRecord (getRec block j) = false)
    (hfp : pureFindPackage block (j + 1) = .ok none)
    (hdec : FileTreeEntry.decode (getRec block j) = none) :
    scanPure pats block pos = ([], [], some (.EntryParse (getRec block j))) := by
  rw [scanPure.eq_def]
  split
  · rename_i hj
    rw [hidx] at hj
    cases hj
  · rename_i j2 hj
    rw [hidx] at hj
    injection hj with hj
    subst hj
    rw [if_neg (by rw [hrec]; simp)]
    split
    · rename_i e2 he
      rw [hfp] at he
      simp at he
    · rename_i pkg2 e2 he
      rw [hfp] at he
      simp at he
    · rename_i he
      simp only [hdec]

theorem scanPure_nopkg_noexact {pats : QueryPatterns} {block : Block} {pos j : Nat}
    {entry : FileTreeEntry}
    (hidx : findIdxFrom pats.pattern block pos = some j)
    (hrec : isPackageRecord (getRec block j) = false)
    (hfp : pureFindPackage block (j + 1) = .ok none)
    (hdec : FileTreeEntry.decode (getRec block j) = some entry)
    (hex : pats.exactPattern entry.path = false) :
    scanPure pats block pos = scanPure pats block (j + 1) := by
  rw [scanPure.eq_def]
  split
  · rename_i hj
    rw [hidx] at hj
    cases hj
  · rename_i j2 hj
    rw [hidx] at hj
    injection hj with hj
    subst hj
    rw [if_neg (by rw [hrec]; simp)]
    split
    · rename_i e2 he
      rw [hfp] at he
      simp at he
    · rename_i pkg2 e2 he
      rw [hfp] at he
      simp at he
    · rename_i he
      simp only [hdec]
      rw [if_neg (by rw [hex]; simp)]

theorem scanPure_nopkg_orphan {pats : QueryPatterns} {block : Block} {pos j : Nat}
    {entry : FileTreeEntry}
    (hidx : findIdxFrom pats.pattern block pos = some j)
    (hrec : isPackageRecord (getRec block j) = false)
    (hfp : pureFindPackage block (j + 1) = .ok none)
    (hdec : FileTreeEntry.decode (getRec block j) = some entry)
    (hex : pats.exactPattern entry.path = true) :
    scanPure pats block pos =
      ((scanPure pats block (j + 1)).1,
       entry :: (scanPure pats block (j + 1)).2.1, (scanPure pats block (j + 1)).2.2) := by
  rw [scanPure.eq_def]
  split
  · rename_i hj
    rw [hidx] at hj
    cases hj
  · rename_i j2 hj
    rw [hidx] at hj
    injection hj with hj
    subst hj
    rw [if_neg (by rw [hrec]; simp)]
    split
    · rename_i e2 he
      rw [hfp] at he
      simp at he
    · rename_i pkg2 e2 he
      rw [hfp] at he
      simp at he
    · rename_i he
      simp only [hdec]
      rw [if_pos hex]

theorem scanLoopP_stop {pats : QueryPatterns} {block : Block} {pos : Nat} {st : FPState}
    (hidx : findIdxFrom pats.pattern block pos = none) :
    scanLoopP pats block pos st = ([], [], none) := by
  rw [scanLoopP.eq_def]
  split
  · rfl
  · rename_i j hj
    rw [hidx] at hj
    cases hj

theorem scanLoopP_pkgrec {pats : QueryPatterns} {block : Block} {pos j : Nat} {st : FPState}
    (hidx : findIdxFrom pats.pattern block pos = some j)
    (hrec : isPackageRecord (getRec block j) = true) :
    scanLoopP pats block pos st = scanLoopP pats block (j + 1) st := by
  rw [scanLoopP.eq_def]
  split
  · rename_i hj
    rw [hidx] at hj
    cases hj
  · rename_i j2 hj
    rw [hidx] at hj
    injection hj with hj
    subst hj
    rw [if_pos hrec]

theorem scanLoopP_fp_error {pats : QueryPatterns} {block : Block} {pos j : Nat}
    {st : FPState} {err : DatabaseError}
    (hidx : findIdxFrom pats.pattern block pos = some j)
    (hrec : isPackageRecord (getRec block j) = false)
    (hfp : findPackage block st (j + 1) = .error err) :
    scanLoopP pats block pos st = ([], [], some err) := by
  rw [scanLoopP.eq_def]
  split
  · rename_i hj
    rw [hidx] at hj
    cases hj
  · rename_i j2 hj
    rw [hidx] at hj
    injection hj with hj
    subst hj
    rw [if_neg (by rw [hrec]; simp)]
    split
    · rename_i e2 he
      rw [hfp] at he
      injection he with he
      subst he
      rfl
    · rename_i pkg2 e2 st1x he
      rw [hfp] at he
      simp at he
    · rename_i st1x he
      rw [hfp] at he
      simp at he

theorem scanLoopP_reject {pats : QueryPatterns} {block : Block} {pos j e : Nat}
    {st st1 : FPState} {pkg : StorePath}
    (hidx : findIdxFrom pats.pattern block pos = some j)
    (hrec : isPackageRecord (getRec block j) = false)
    (hfp : findPackage block st (j + 1) = .ok (some (pkg, e), st1))
    (hpass : shouldSearch pats pkg = false) :
    scanLoopP pats block pos st = scanLoopP pats block e st1 := by
  rw [scanLoopP.eq_def]
  split
  · rename_i hj
    rw [hidx] at hj
    cases hj
  · rename_i j2 hj
    rw [hidx] at hj
    injection hj with hj
    subst hj
    rw [if_neg (by rw [hrec]; simp)]
    split
    · rename_i e2 he
      rw [hfp] at he
      simp at he
    · rename_i pkg2 e2 st1x he
      rw [hfp] at he
      simp only [Except.ok.injEq, Prod.mk.injEq, Option.some.injEq] at he
      obtain ⟨⟨rfl, rfl⟩, rfl⟩ := he
      rw [if_neg (by rw [hpass]; simp)]
    · rename_i st1x he
      rw [hfp] at he
      simp at he

theorem scanLoopP_accept_badentry {pats : QueryPatterns} {block : Block} {pos j e : Nat}
    {st st1 : FPState} {pkg : StorePath}
    (hidx : findIdxFrom pats.pattern block pos = some j)
    (hrec : isPackageRecord (getRec block j) = false)
    (hfp : findPackage block st (j + 1) = .ok (some (pkg, e), st1))
    (hpass : shouldSearch pats pkg = true)
    (hdec : FileTreeEntry.decode (getRec block j) = none) :
    scanLoopP pats block pos st = ([], [], some (.EntryParse (getRec block j))) := by
  rw [scanLoopP.eq_def]
  split
  · rename_i hj
    rw [hidx] at hj
    cases hj
  · rename_i j2 hj
    rw [hidx] at hj
    injection hj with hj
    subst hj
    rw [if_neg (by rw [hrec]; simp)]
    split
    · rename_i e2 he
      rw [hfp] at he
      simp at he
    · rename_i pkg2 e2 st1x he
      rw [hfp] at he
      simp only [Except.ok.injEq, Prod.mk.injEq, Option.some.injEq] at he
      obtain ⟨⟨rfl, rfl⟩, rfl⟩ := he
      rw [if_pos hpass]
      simp only [hdec]
    · rename_i st1x he
      rw [hfp] at he
      simp at he

theorem scanLoopP_accept_noexact {pats : QueryPatterns} {block : Block} {pos j e : Nat}
    {st st1 : FPState} {pkg : StorePath} {entry : FileTreeEntry}
    (hidx : findIdxFrom pats.pattern block pos = some j)
    (hrec : isPackageRecord (getRec block j) = false)
    (hfp : findPackage block st (j + 1) = .ok (some (pkg, e), st1))
    (hpass : shouldSearch pats pkg = true)
    (hdec : FileTreeEntry.decode (getRec block j) = some entry)
    (hex : pats.exactPattern entry.path = false) :
    scanLoopP pats block pos st = scanLoopP pats block (j + 1) st1 := by
  rw [scanLoopP.eq_def]
  split
  · rename_i hj
    rw [hidx] at hj
    cases hj
  · rename_i j2 hj
    rw [hidx] at hj
    injection hj with hj
    subst hj
    rw [if_neg (by rw [hrec]; simp)]
    split
    · rename_i e2 he
      rw [hfp] at he
      simp at he
    · rename_i pkg2 e2 st1x he
      rw [hfp] at he
      simp only [Except.ok.injEq, Prod.mk.injEq, Option.some.injEq] at he
      obtain ⟨⟨rfl, rfl⟩, rfl⟩ := he
      rw [if_pos hpass]
      simp only [hdec]
      rw [if_neg (by rw [hex]; simp)]
    · rename_i st1x he
      rw [hfp] at he
      simp at he

theorem scanLoopP_accept_err2 {pats : QueryPatterns} {block : Block} {pos j e : Nat}
    {st st1 : FPState} {pkg : StorePath} {entry : FileTreeEntry} {e2 : DatabaseError}
    (hidx : findIdxFrom pats.pattern block pos = some j)
    (hrec : isPackageRecord (getRec block j) = false)
    (hfp : findPackage block st (j + 1) = .ok (some (pkg, e), st1))
    (hpass : shouldSearch pats pkg = true)
    (hdec : FileTreeEntry.decode (getRec block j) = some entry)
    (hex : pats.exactPattern entry.path = true)
    (hfp2 : findPackage block st1 (j + 1) = .error e2) :
    scanLoopP pats block pos st = ([], [], some e2) := by
  rw [scanLoopP.eq_def]
  split
  · rename_i hj
    rw [hidx] at hj
    cases hj
  · rename_i j2 hj
    rw [hidx] at hj
    injection hj with hj
    subst hj
    rw [if_neg (by rw [hrec]; simp)]
    split
    · rename_i e2 he
      rw [hfp] at he
      simp at he
    · rename_i pkg2 e2 st1x he
      rw [hfp] at he
      simp only [Except.ok.injEq, Prod.mk.injEq, Option.some.injEq] at he
      obtain ⟨⟨rfl, rfl⟩, rfl⟩ := he
      rw [if_pos hpass]
      simp only [hdec]
      rw [if_pos hex]
      simp only [hfp2]
    · rename_i st1x he
      rw [hfp] at he
      simp at he

theorem scanLoopP_accept_orphan {pats : QueryPatterns} {block : Block} {pos j e : Nat}
    {st st1 st2 : FPState} {pkg : StorePath} {entry : FileTreeEntry}
    (hidx : findIdxFrom pats.pattern block pos = some j)
    (hrec : isPackageRecord (getRec block j) = false)
    (hfp : findPackage block st (j + 1) = .ok (some (pkg, e), st1))
    (hpass : shouldSearch pats pkg = true)
    (hdec : FileTreeEntry.decode (getRec block j) = some entry)
    (hex : pats.exactPattern entry.path = true)
    (hfp2 : findPackage block st1 (j + 1) = .ok (none, st2)) :
    scanLoopP pats block pos st =
      ((scanLoopP pats block (j + 1) st2).1,
       entry :: (scanLoopP pats block (j + 1) st2).2.1,
       (scanLoopP pats block (j + 1) st2).2.2) := by
  rw [scanLoopP.eq_def]
  split
  · rename_i hj
    rw [hidx] at hj
    cases hj
  · rename_i j2 hj
    rw [hidx] at hj
    injection hj with hj
    subst hj
    rw [if_neg (by rw [hrec]; simp)]
    split
    · rename_i e2 he
      rw [hfp] at he
      simp at he
    · rename_i pkg2 e2 st1x he
      rw [hfp] at he
      simp only [Except.ok.injEq, Prod.mk.injEq, Option.some.injEq] at he
      obtain ⟨⟨rfl, rfl⟩, rfl⟩ := he
      rw [if_pos hpass]
      simp only [hdec]
      rw [if_pos hex]
      simp only [hfp2]
    · rename_i st1x he
      rw [hfp] at he
      simp at he

theorem scanLoopP_accept_found {pats : QueryPatterns} {block : Block} {pos j e e2 : Nat}
    {st st1 st2 : FPState} {pkg pkg2 : StorePath} {entry : FileTreeEntry}
    (hidx : findIdxFrom pats.pattern block pos = some j)
    (hrec : isPackageRecord (getRec block j) = false)
    (hfp : findPackage block st (j + 1) = .ok (some (pkg, e), st1))
    (hpass : shouldSearch pats pkg = true)
    (hdec : FileTreeEntry.decode (getRec block j) = some entry)
    (hex : pats.exactPattern entry.path = true)
    (hfp2 : findPackage block st1 (j + 1) = .ok (some (pkg2, e2), st2)) :
    scanLoopP pats block pos st =
      ((pkg2, entry) :: (scanLoopP pats block (j + 1) st2).1,
       (scanLoopP pats block (j + 1) st2).2.1,
       (scanLoopP pats block (j + 1) st2).2.2) := by
  rw [scanLoopP.eq_def]
  split
  · rename_i hj
    rw [hidx] at hj
    cases hj
  · rename_i j2 hj
    rw [hidx] at hj
    injection hj with hj
    subst hj
    rw [if_neg (by rw [hrec]; simp)]
    split
    · rename_i e2 he
      rw [hfp] at he
      simp at he
    · rename_i pkg2 e2 st1x he
      rw [hfp] at he
      simp only [Except.ok.injEq, Prod.mk.injEq, Option.some.injEq] at he
      obtain ⟨⟨rfl, rfl⟩, rfl⟩ := he
      rw [if_pos hpass]
      simp only [hdec]
      rw [if_pos hex]
      simp only [hfp2]
    · rename_i st1x he
      rw [hfp] at he
      simp at he

theorem scanLoopP_nopkg_badentry {pats : QueryPatterns} {block : Block} {pos j : Nat}
    {st st1 : FPState}
    (hidx : findIdxFrom pats.pattern block pos = some j)
    (hrec : isPackageRecord (getRec block j) = false)
    (hfp : findPackage block st (j + 1) = .ok (none, st1))
    (hdec : FileTreeEntry.decode (getRec block j) = none) :
    scanLoopP pats block pos st = ([], [], some (.EntryParse (getRec block j))) := by
  rw [scanLoopP.eq_def]
  split
  · rename_i hj
    rw [hidx] at hj
    cases hj
  · rename_i j2 hj
    rw [hidx] at hj
    injection hj with hj
    subst hj
    rw [if_neg (by rw [hrec]; simp)]
    split
    · rename_i e2 he
      rw [hfp] at he
      simp at he
    · rename_i pkg2 e2 st1x he
      rw [hfp] at he
      simp at he
    · rename_i st1x he
      rw [hfp] at he
      simp only [Except.ok.injEq, Prod.mk.injEq] at he
      obtain ⟨-, rfl⟩ := he
      simp only [hdec]

theorem scanLoopP_nopkg_noexact {pats : QueryPatterns} {block : Block} {pos j : Nat}
    {st st1 : FPState} {entry : FileTreeEntry}
    (hidx : findIdxFrom pats.pattern block pos = some j)
    (hrec : isPackageRecord (getRec block j) = false)
    (hfp : findPackage block st (j + 1) = .ok (none, st1))
    (hdec : FileTreeEntry.decode (getRec block j) = some entry)
    (hex : pats.exactPattern entry.path = false) :
    scanLoopP pats block pos st = scanLoopP pats block (j + 1) st1 := by
  rw [scanLoopP.eq_def]
  split
  · rename_i hj
    rw [hidx] at hj
    cases hj
  · rename_i j2 hj
    rw [hidx] at hj
    injection hj with hj
    subst hj
    rw [if_neg (by rw [hrec]; simp)]
    split
    · rename_i e2 he
      rw [hfp] at he
      simp at he
    · rename_i pkg2 e2 st1x he
      rw [hfp] at he
      simp at he
    · rename_i st1x he
      rw [hfp] at he
      simp only [Except.ok.injEq, Prod.mk.injEq] at he
      obtain ⟨-, rfl⟩ := he
      simp only [hdec]
      rw [if_neg (by rw [hex]; simp)]

theorem scanLoopP_nopkg_err2 {pats : QueryPatterns} {block : Block} {pos j : Nat}
    {st st1 : FPState} {entry : FileTreeEntry} {e2 : DatabaseError}
    (hidx : findIdxFrom pats.pattern block pos = some j)
    (hrec : isPackageRecord (getRec block j) = false)
    (hfp : findPackage block st (j + 1) = .ok (none, st1))
    (hdec : FileTreeEntry.decode (getRec block j) = some entry)
    (hex : pats.exactPattern entry.path = true)
    (hfp2 : findPackage block st1 (j + 1) = .error e2) :
    scanLoopP pats block pos st = ([], [], some e2) := by
  rw [scanLoopP.eq_def]
  split
  · rename_i hj
    rw [hidx] at hj
    cases hj
  · rename_i j2 hj
    rw [hidx] at hj
    injection hj with hj
    subst hj
    rw [if_neg (by rw [hrec]; simp)]
    split
    · rename_i e2 he
      rw [hfp] at he
      simp at he
    · rename_i pkg2 e2 st1x he
      rw [hfp] at he
      simp at he
    · rename_i st1x he
      rw [hfp] at he
      simp only [Except.ok.injEq, Prod.mk.injEq] at he
      obtain ⟨-, rfl⟩ := he
      simp only [hdec]
      rw [if_pos hex]
      simp only [hfp2]

theorem scanLoopP_nopkg_orphan {pats : QueryPatterns} {block : Block} {pos j : Nat}
    {st st1 st2 : FPState} {entry : FileTreeEntry}
    (hidx : findIdxFrom pats.pattern block pos = some j)
    (hrec : isPackageRecord (getRec block j) = false)
    (hfp : findPackage block st (j + 1) = .ok (none, st1))
    (hdec : FileTreeEntry.decode (getRec block j) = some entry)
    (hex : pats.exactPattern entry.path = true)
    (hfp2 : findPackage block st1 (j + 1) = .ok (none, st2)) :
    scanLoopP pats block pos st =
      ((scanLoopP pats block (j + 1) st2).1,
       entry :: (scanLoopP pats block (j + 1) st2).2.1,
       (scanLoopP pats block (j + 1) st2).2.2) := by
  rw [scanLoopP.eq_def]
  split
  · rename_i hj
    rw [hidx] at hj
    cases hj
  · rename_i j2 hj
    rw [hidx] at hj
    injection hj with hj
    subst hj
    rw [if_neg (by rw [hrec]; simp)]
    split
    · rename_i e2 he
      rw [hfp] at he
      simp at he
    · rename_i pkg2 e2 st1x he
      rw [hfp] at he
      simp at he
    · rename_i st1x he
      rw [hfp] at he
      simp only [Except.ok.injEq, Prod.mk.injEq] at he
      obtain ⟨-, rfl⟩ := he
      simp only [hdec]
      rw [if_pos hex]
      simp only [hfp2]

theorem scanLoopP_nopkg_found {pats : QueryPatterns} {block : Block} {pos j e2 : Nat}
    {st st1 st2 : FPState} {pkg2 : StorePath} {entry : FileTreeEntry}
    (hidx : findIdxFrom pats.pattern block pos = some j)
    (hrec : isPackageRecord (getRec block j) = false)
    (hfp : findPackage block st (j + 1) = .ok (none, st1))
    (hdec : FileTreeEntry.decode (getRec block j) = some entry)
    (hex : pats.exactPattern entry.path = true)
    (hfp2 : findPackage block st1 (j + 1) = .ok (some (pkg2, e2), st2)) :
    scanLoopP pats block pos st =
      ((pkg2, entry) :: (scanLoopP pats block (j + 1) st2).1,
       (scanLoopP pats block (j + 1) st2).2.1,
       (scanLoopP pats block (j + 1) st2).2.2) := by
  rw [scanLoopP.eq_def]
  split
  · rename_i hj
    rw [hidx] at hj
    cases hj
  · rename_i j2 hj
    rw [hidx] at hj
    injection hj with hj
    subst hj
    rw [if_neg (by rw [hrec]; simp)]
    split
    · rename_i e2 he
      rw [hfp] at he
      simp at he
    · rename_i pkg2 e2 st1x he
      rw [hfp] at he
      simp at he
    · rename_i st1x he
      rw [hfp] at he
      simp only [Except.ok.injEq, Prod.mk.injEq] at he
      obtain ⟨-, rfl⟩ := he
      simp only [hdec]
      rw [if_pos hex]
      simp only [hfp2]

theorem scanLoopP_eq_pure {pats : QueryPatterns} {block : Block} {pos : Nat} {st : FPState}
    (hv : FPValid block pos st) :
    scanLoopP pats block pos st = scanPure pats block pos := by
  cases hidx : findIdxFrom pats.pattern block pos with
  | none => rw [scanLoopP_stop hidx, scanPure_stop hidx]
  | some j =>
    obtain ⟨hpj, hjlen, -⟩ := findIdxFrom_bounds hidx
    by_cases hrec : isPackageRecord (getRec block j) = true
    · rw [scanLoopP_pkgrec hidx hrec, scanPure_pkgrec hidx hrec]
      exact scanLoopP_eq_pure (FPValid_mono hv (by omega))
    · have hrec2 : isPackageRecord (getRec block j) = false := by
        simpa using hrec
      have hstep := findPackage_pure hv (show pos ≤ j + 1 by omega)
      cases hfp : pureFindPackage block (j + 1) with
      | error err =>
        rw [scanLoopP_fp_error hidx hrec2 (hstep.1 err hfp), scanPure_fp_error hidx hrec2 hfp]
      | ok r =>
        obtain ⟨st1, hfp1, hv1⟩ := hstep.2 r hfp
        cases r with
        | none =>
          cases hdec : FileTreeEntry.decode (getRec block j) with
          | none =>
            rw [scanLoopP_nopkg_badentry hidx hrec2 hfp1 hdec,
              scanPure_nopkg_badentry hidx hrec2 hfp hdec]
          | some entry =>
            by_cases hex : pats.exactPattern entry.path = true
            · have hstep2 := findPackage_pure hv1 (Nat.le_refl (j + 1))
              obtain ⟨st2, hfp2, hv2⟩ := hstep2.2 none hfp
              rw [scanLoopP_nopkg_orphan hidx hrec2 hfp1 hdec hex hfp2,
                scanPure_nopkg_orphan hidx hrec2 hfp hdec hex]
              rw [scanLoopP_eq_pure hv2]
            · have hex2 : pats.exactPattern entry.path = false := by simpa using hex
              rw [scanLoopP_nopkg_noexact hidx hrec2 hfp1 hdec hex2,
                scanPure_nopkg_noexact hidx hrec2 hfp hdec hex2]
              exact scanLoopP_eq_pure hv1
        | some pe =>
          obtain ⟨pkg, e⟩ := pe
          by_cases hpass : shouldSearch pats pkg = true
          · cases hdec : FileTreeEntry.decode (getRec block j) with
            | none =>
              rw [scanLoopP_accept_badentry hidx hrec2 hfp1 hpass hdec,
                scanPure_accept_badentry hidx hrec2 hfp hpass hdec]
            | some entry =>
              by_cases hex : pats.exactPattern entry.path = true
              · have hstep2 := findPackage_pure hv1 (Nat.le_refl (j + 1))
                obtain ⟨st2, hfp2, hv2⟩ := hstep2.2 (some (pkg, e)) hfp
                rw [scanLoopP_accept_found hidx hrec2 hfp1 hpass hdec hex hfp2,
                  scanPure_accept_found hidx hrec2 hfp hpass hdec hex]
                rw [scanLoopP_eq_pure hv2]
              · have hex2 : pats.exactPattern entry.path = false := by simpa using hex
                rw [scanLoopP_accept_noexact hidx hrec2 hfp1 hpass hdec hex2,
                  scanPure_accept_noexact hidx hrec2 hfp hpass hdec hex2]
                exact scanLoopP_eq_pure hv1
          · have hpass2 : shouldSearch pats pkg = false := by simpa using hpass
            rw [scanLoopP_reject hidx hrec2 hfp1 hpass2, scanPure_reject hidx hrec2 hfp hpass2]
            have hje := (pureFindPackage_some hfp).1
            exact scanLoopP_eq_pure (FPValid_mono hv1 (by omega))
termination_by block.length - pos
decreasing_by all_goals omega

/-- The scan loop with a fresh find_package state computes the uncached
scan: the per-block package cache is an optimization only. -/
theorem scanLoopP_init_eq_pure (pats : QueryPatterns) (block : Block) (pos : Nat) :
    scanLoopP pats block pos FPState.init = scanPure pats block pos :=
  scanLoopP_eq_pure (FPValid_init block pos)

/-- The uncached version of one block-processing iteration. -/
def processPure (pats : QueryPatterns) (block : Block) (orphans : List FileTreeEntry) :
    List (StorePath × FileTreeEntry) × List FileTreeEntry × Option DatabaseError :=
  if orphans.isEmpty then scanPure pats block 0
  else
    match pureFindPackage block 0 with
    | .error e => ([], orphans, some e)
    | .ok none =>
      let r := scanPure pats block 0
      (r.1, orphans ++ r.2.1, r.2.2)
    | .ok (some (pkg, e)) =>
      if shouldSearch pats pkg then
        let r := scanPure pats block 0
        (orphans.map (fun en => (pkg, en)) ++ r.1, r.2.1, r.2.2)
      else scanPure pats block e

theorem processBlockP_eq_pure (pats : QueryPatterns) (block : Block)
    (orphans : List FileTreeEntry) :
    processBlockP pats block orphans = processPure pats block orphans := by
  rw [processBlockP, processPure]
  by_cases ho : orphans.isEmpty
  · rw [if_pos ho, if_pos ho, scanLoopP_init_eq_pure]
  · rw [if_neg ho, if_neg ho]
    have hstep := findPackage_pure (FPValid_init block 0) (Nat.le_refl 0)
    cases hfp : pureFindPackage block 0 with
    | error err =>
      simp only [hstep.1 err hfp, hfp]
    | ok r =>
      obtain ⟨st1, hfp1, hv1⟩ := hstep.2 r hfp
      rw [hfp1]
      cases r with
      | none =>
        dsimp only
        rw [scanLoopP_eq_pure hv1]
      | some pe =>
        obtain ⟨pkg, e⟩ := pe
        dsimp only
        by_cases hpass : shouldSearch pats pkg = true
        · rw [if_pos hpass, if_pos hpass, scanLoopP_eq_pure hv1]
        · rw [if_neg hpass, if_neg hpass]
          exact scanLoopP_eq_pure (FPValid_mono hv1 (Nat.zero_le e))

theorem stripBounds_pattern (pats : QueryPatterns) :
    (stripBounds pats).pattern = pats.pattern := rfl

theorem stripBounds_exactPattern (pats : QueryPatterns) :
    (stripBounds pats).exactPattern = pats.exactPattern := rfl

theorem shouldSearch_strip (pats : QueryPatterns) (pkg : StorePath) :
    shouldSearch (stripBounds pats) pkg = true := rfl

/-- The scan loop looks only at the first matching record: two starting
positions with the same first match give the same result. -/
theorem scanPure_eq_of_findIdx {pats : QueryPatterns} {block : Block} {pos pos' j : Nat}
    (h : findIdxFrom pats.pattern block pos = some j)
    (h' : findIdxFrom pats.pattern block pos' = some j) :
    scanPure pats block pos = scanPure pats block pos' := by
  by_cases hrec : isPackageRecord (getRec block j) = true
  · rw [scanPure_pkgrec h hrec, scanPure_pkgrec h' hrec]
  · have hrec2 : isPackageRecord (getRec block j) = false := by simpa using hrec
    cases hfp : pureFindPackage block (j + 1) with
    | error err =>
      rw [scanPure_fp_error h hrec2 hfp, scanPure_fp_error h' hrec2 hfp]
    | ok r =>
      cases r with
      | none =>
        cases hdec : FileTreeEntry.decode (getRec block j) with
        | none =>
          rw [scanPure_nopkg_badentry h hrec2 hfp hdec,
            scanPure_nopkg_badentry h' hrec2 hfp hdec]
        | some entry =>
          by_cases hex : pats.exactPattern entry.path = true
          · rw [scanPure_nopkg_orphan h hrec2 hfp hdec hex,
              scanPure_nopkg_orphan h' hrec2 hfp hdec hex]
          · have hex2 : pats.exactPattern entry.path = false := by simpa using hex
            rw [scanPure_nopkg_noexact h hrec2 hfp hdec hex2,
              scanPure_nopkg_noexact h' hrec2 hfp hdec hex2]
      | some pe =>
        obtain ⟨pkg, e⟩ := pe
        by_cases hpass : shouldSearch pats pkg = true
        · cases hdec : FileTreeEntry.decode (getRec block j) with
          | none =>
            rw [scanPure_accept_badentry h hrec2 hfp hpass hdec,
              scanPure_accept_badentry h' hrec2 hfp hpass hdec]
          | some entry =>
            by_cases hex : pats.exactPattern entry.path = true
            · rw [scanPure_accept_found h hrec2 hfp hpass hdec hex,
                scanPure_accept_found h' hrec2 hfp hpass hdec hex]
            · have hex2 : pats.exactPattern entry.path = false := by simpa using hex
              rw [scanPure_accept_noexact h hrec2 hfp hpass hdec hex2,
                scanPure_accept_noexact h' hrec2 hfp hpass hdec hex2]
        · have hpass2 : shouldSearch pats pkg = false := by simpa using hpass
          rw [scanPure_reject h hrec2 hfp hpass2, scanPure_reject h' hrec2 hfp hpass2]

theorem pureFindPackage_some_idx {block : Block} {i e : Nat} {pkg : StorePath}
    (h : pureFindPackage block i = .ok (some (pkg, e))) :
    findIdxFrom isPackageRecord block i = some (e - 1) := by
  rw [pureFindPackage] at h
  cases hidx : findIdxFrom isPackageRecord block i with
  | none => simp [hidx] at h
  | some j =>
    simp only [hidx] at h
    cases hparse : parseStorePath ((getRec block j).drop 2) with
    | none => simp [hparse] at h
    | some pkg' =>
      simp only [hparse, Except.ok.injEq, Option.some.injEq, Prod.mk.injEq] at h
      obtain ⟨-, rfl⟩ := h
      simp

/-- Joint induction for filter composition: on any scan whose unfiltered
run is error free, the filtered run returns the unfiltered found entries
restricted to packages passing the bounds, with the same orphans (part 1);
and when the first package at or after pos is rejected, the filtered scan
resumed after that package record computes the same restriction (part 2). -/
theorem scanPure_filter_skip (pats : QueryPatterns) (block : Block) (n pos : Nat)
    (hpos : block.length - pos ≤ n) :
    ((scanPure (stripBounds pats) block pos).2.2 = none →
      scanPure pats block pos =
        ((scanPure (stripBounds pats) block pos).1.filter (fun pr => shouldSearch pats pr.1),
         (scanPure (stripBounds pats) block pos).2.1, none)) ∧
    (∀ pkg e, pureFindPackage block pos = .ok (some (pkg, e)) →
      shouldSearch pats pkg = false →
      (scanPure (stripBounds pats) block pos).2.2 = none →
      scanPure pats block e =
        ((scanPure (stripBounds pats) block pos).1.filter (fun pr => shouldSearch pats pr.1),
         (scanPure (stripBounds pats) block pos).2.1, none)) := by
  constructor
  · intro hU
    cases hidx : findIdxFrom pats.pattern block pos with
    | none =>
      have hidxU : findIdxFrom (stripBounds pats).pattern block pos = none := hidx
      rw [scanPure_stop hidx, scanPure_stop hidxU]
      simp
    | some j =>
      have hidxU : findIdxFrom (stripBounds pats).pattern block pos = some j := hidx
      obtain ⟨hpj, hjlen, -⟩ := findIdxFrom_bounds hidx
      have hn1 : 1 ≤ n := by omega
      by_cases hrec : isPackageRecord (getRec block j) = true
      · rw [scanPure_pkgrec hidxU hrec] at hU ⊢
        rw [scanPure_pkgrec hidx hrec]
        exact (scanPure_filter_skip pats block (n - 1) (j + 1) (by omega)).1 hU
      · have hrec2 : isPackageRecord (getRec block j) = false := by simpa using hrec
        cases hfp : pureFindPackage block (j + 1) with
        | error err =>
          rw [scanPure_fp_error hidxU hrec2 hfp] at hU
          simp at hU
        | ok r =>
          cases r with
          | none =>
            cases hdec : FileTreeEntry.decode (getRec block j) with
            | none =>
              rw [scanPure_nopkg_badentry hidxU hrec2 hfp hdec] at hU
              simp at hU
            | some entry =>
              by_cases hex : pats.exactPattern entry.path = true
              · have hexU : (stripBounds pats).exactPattern entry.path = true := hex
                rw [scanPure_nopkg_orphan hidxU hrec2 hfp hdec hexU] at hU ⊢
                dsimp only at hU
                rw [scanPure_nopkg_orphan hidx hrec2 hfp hdec hex]
                rw [(scanPure_filter_skip pats block (n - 1) (j + 1) (by omega)).1 hU]
              · have hex2 : pats.exactPattern entry.path = false := by simpa using hex
                have hexU : (stripBounds pats).exactPattern entry.path = false := hex2
                rw [scanPure_nopkg_noexact hidxU hrec2 hfp hdec hexU] at hU ⊢
                rw [scanPure_nopkg_noexact hidx hrec2 hfp hdec hex2]
                exact (scanPure_filter_skip pats block (n - 1) (j + 1) (by omega)).1 hU
          | some pe =>
            obtain ⟨pkg, e⟩ := pe
            by_cases hpass : shouldSearch pats pkg = true
            · cases hdec : FileTreeEntry.decode (getRec block j) with
              | none =>
                rw [scanPure_accept_badentry hidxU hrec2 hfp (shouldSearch_strip pats pkg) hdec] at hU
                simp at hU
              | some entry =>
                by_cases hex : pats.exactPattern entry.path = true
                · have hexU : (stripBounds pats).exactPattern entry.path = true := hex
                  rw [scanPure_accept_found hidxU hrec2 hfp (shouldSearch_strip pats pkg) hdec hexU] at hU ⊢
                  dsimp only at hU
                  rw [scanPure_accept_found hidx hrec2 hfp hpass hdec hex]
                  rw [(scanPure_filter_skip pats block (n - 1) (j + 1) (by omega)).1 hU]
                  dsimp only
                  rw [List.filter_cons_of_pos (by simpa using hpass)]
                · have hex2 : pats.exactPattern entry.path = false := by simpa using hex
                  have hexU : (stripBounds pats).exactPattern entry.path = false := hex2
                  rw [scanPure_accept_noexact hidxU hrec2 hfp (shouldSearch_strip pats pkg) hdec hexU] at hU ⊢
                  rw [scanPure_accept_noexact hidx hrec2 hfp hpass hdec hex2]
                  exact (scanPure_filter_skip pats block (n - 1) (j + 1) (by omega)).1 hU
            · have hpass2 : shouldSearch pats pkg = false := by simpa using hpass
              cases hdec : FileTreeEntry.decode (getRec block j) with
              | none =>
                rw [scanPure_accept_badentry hidxU hrec2 hfp (shouldSearch_strip pats pkg) hdec] at hU
                simp at hU
              | some entry =>
                by_cases hex : pats.exactPattern entry.path = true
                · have hexU : (stripBounds pats).exactPattern entry.path = true := hex
                  rw [scanPure_accept_found hidxU hrec2 hfp (shouldSearch_strip pats pkg) hdec hexU] at hU ⊢
                  dsimp only at hU
                  rw [scanPure_reject hidx hrec2 hfp hpass2]
                  rw [(scanPure_filter_skip pats block (n - 1) (j + 1) (by omega)).2 pkg e hfp hpass2 hU]
                  dsimp only
                  rw [List.filter_cons_of_neg (by simpa using hpass2)]
                · have hex2 : pats.exactPattern entry.path = false := by simpa using hex
                  have hexU : (stripBounds pats).exactPattern entry.path = false := hex2
                  rw [scanPure_accept_noexact hidxU hrec2 hfp (shouldSearch_strip pats pkg) hdec hexU] at hU ⊢
                  rw [scanPure_reject hidx hrec2 hfp hpass2]
                  exact (scanPure_filter_skip pats block (n - 1) (j + 1) (by omega)).2 pkg e hfp hpass2 hU
  · intro pkg e hfpPos hpass hU
    obtain ⟨hpe, helen, hpkgrec, hparse⟩ := pureFindPackage_some hfpPos
    cases hidx : findIdxFrom pats.pattern block pos with
    | none =>
      have hidxU : findIdxFrom (stripBounds pats).pattern block pos = none := hidx
      have hidxE : findIdxFrom pats.pattern block e = none :=
        findIdxFrom_mono_none hidx (by omega)
      rw [scanPure_stop hidxU, scanPure_stop hidxE]
      simp
    | some j =>
      have hidxU : findIdxFrom (stripBounds pats).pattern block pos = some j := hidx
      obtain ⟨hpj, hjlen, -⟩ := findIdxFrom_bounds hidx
      have hn1 : 1 ≤ n := by omega
      by_cases hje : j < e
      · by_cases hjpkg : j = e - 1
        · have hrec : isPackageRecord (getRec block j) = true := by
            rw [hjpkg]; exact hpkgrec
          rw [scanPure_pkgrec hidxU hrec] at hU ⊢
          have hj1e : j + 1 = e := by omega
          rw [hj1e] at hU ⊢
          exact (scanPure_filter_skip pats block (n - 1) e (by omega)).1 hU
        · have hj3 : j + 1 < e := by omega
          have hrec2 : isPackageRecord (getRec block j) = false := by
            have hidxP := pureFindPackage_some_idx hfpPos
            exact findIdxFrom_min hidxP j hpj (by omega)
          have hfpj : pureFindPackage block (j + 1) = .ok (some (pkg, e)) :=
            pureFindPackage_mono hfpPos (by omega) hj3
          cases hdec : FileTreeEntry.decode (getRec block j) with
          | none =>
            rw [scanPure_accept_badentry hidxU hrec2 hfpj (shouldSearch_strip pats pkg) hdec] at hU
            simp at hU
          | some entry =>
            by_cases hex : pats.exactPattern entry.path = true
            · have hexU : (stripBounds pats).exactPattern entry.path = true := hex
              rw [scanPure_accept_found hidxU hrec2 hfpj (shouldSearch_strip pats pkg) hdec hexU] at hU ⊢
              dsimp only at hU
              rw [(scanPure_filter_skip pats block (n - 1) (j + 1) (by omega)).2 pkg e hfpj hpass hU]
              dsimp only
              rw [List.filter_cons_of_neg (by simpa using hpass)]
            · have hex2 : pats.exactPattern entry.path = false := by simpa using hex
              have hexU : (stripBounds pats).exactPattern entry.path = false := hex2
              rw [scanPure_accept_noexact hidxU hrec2 hfpj (shouldSearch_strip pats pkg) hdec hexU] at hU ⊢
              exact (scanPure_filter_skip pats block (n - 1) (j + 1) (by omega)).2 pkg e hfpj hpass hU
      · have hidxE : findIdxFrom pats.pattern block e = some j :=
          findIdxFrom_mono_some hidx (by omega) (by omega)
        have hidxEU : findIdxFrom (stripBounds pats).pattern block e = some j := hidxE
        have hcong : scanPure (stripBounds pats) block pos = scanPure (stripBounds pats) block e :=
          scanPure_eq_of_findIdx hidxU hidxEU
        rw [hcong] at hU ⊢
        exact (scanPure_filter_skip pats block (n - 1) e (by omega)).1 hU
termination_by n
decreasing_by all_goals omega

theorem processPure_filter (pats : QueryPatterns) (block : Block) (orphans : List FileTreeEntry)
    (hU : (processPure (stripBounds pats) block orphans).2.2 = none) :
    processPure pats block orphans =
      ((processPure (stripBounds pats) block orphans).1.filter (fun pr => shouldSearch pats pr.1),
       (processPure (stripBounds pats) block orphans).2.1, none) := by
  have hmain := scanPure_filter_skip pats block block.length 0 (by omega)
  simp only [processPure] at hU ⊢
  by_cases ho : orphans.isEmpty
  · simp only [if_pos ho] at hU ⊢
    exact hmain.1 hU
  · simp only [if_neg ho] at hU ⊢
    cases hfp : pureFindPackage block 0 with
    | error err =>
      rw [hfp] at hU
      simp at hU
    | ok r =>
      rw [hfp] at hU
      cases r with
      | none =>
        dsimp only at hU ⊢
        rw [hmain.1 hU]
      | some pe =>
        obtain ⟨pkg, e⟩ := pe
        dsimp only at hU ⊢
        rw [if_pos (show shouldSearch (stripBounds pats) pkg = true from rfl)] at hU ⊢
        dsimp only at hU
        by_cases hpass : shouldSearch pats pkg = true
        · rw [if_pos hpass]
          rw [hmain.1 hU]
          dsimp only
          have hkeep : (orphans.map (fun en => (pkg, en))).filter
              (fun pr => shouldSearch pats pr.1) = orphans.map (fun en => (pkg, en)) := by
            apply List.filter_eq_self.mpr
            intro a ha
            obtain ⟨en, -, rfl⟩ := List.mem_map.mp ha
            simpa using hpass
          rw [List.filter_append, hkeep]
        · have hpass2 : shouldSearch pats pkg = false := by simpa using hpass
          rw [if_neg (by rw [hpass2]; simp)]
          rw [hmain.2 pkg e hfp hpass2 hU]
          dsimp only
          have hdrop : (orphans.map (fun en => (pkg, en))).filter
              (fun pr => shouldSearch pats pr.1) = [] := by
            apply List.filter_eq_nil.mpr
            intro a ha
            obtain ⟨en, -, rfl⟩ := List.mem_map.mp ha
            simpa using hpass2
          rw [List.filter_append, hdrop, List.nil_append]

theorem runQueryP_cons_err {pats : QueryPatterns} {b : Block} {rest : List Block}
    {orphans : List FileTreeEntry} {f : List (StorePath × FileTreeEntry)}
    {o : List FileTreeEntry} {e : DatabaseError}
    (h : processBlockP pats b orphans = (f, o, some e)) :
    runQueryP pats (b :: rest) orphans = (f, some e) := by
  simp only [runQueryP, h]

theorem runQueryP_cons_ok {pats : QueryPatterns} {b : Block} {rest : List Block}
    {orphans : List FileTreeEntry} {f : List (StorePath × FileTreeEntry)}
    {o : List FileTreeEntry}
    (h : processBlockP pats b orphans = (f, o, none)) :
    runQueryP pats (b :: rest) orphans =
      (f ++ (runQueryP pats rest o).1, (runQueryP pats rest o).2) := by
  simp only [runQueryP, h]

theorem runQueryP_filter (pats : QueryPatterns) (db : List Block) :
    ∀ orphans res, runQueryP (stripBounds pats) db orphans = (res, none) →
      runQueryP pats db orphans =
        (res.filter (fun pr => shouldSearch pats pr.1), none) := by
  induction db with
  | nil =>
    intro orphans res h
    simp only [runQueryP] at h ⊢
    cases h
    simp
  | cons b rest ih =>
    intro orphans res h
    have hbpU := processBlockP_eq_pure (stripBounds pats) b orphans
    rcases hPU : processPure (stripBounds pats) b orphans with ⟨fU, oU, eU⟩
    cases eU with
    | some e =>
      rw [runQueryP_cons_err (hbpU.trans hPU)] at h
      cases h
    | none =>
      rw [runQueryP_cons_ok (hbpU.trans hPU)] at h
      rcases hRR : runQueryP (stripBounds pats) rest oU with ⟨resR, eR⟩
      rw [hRR] at h
      cases h
      have hUo : (processPure (stripBounds pats) b orphans).2.2 = none := by
        rw [hPU]
      have hbpF : processBlockP pats b orphans = (fU.filter (fun pr => shouldSearch pats pr.1), oU, none) := by
        rw [processBlockP_eq_pure, processPure_filter pats b orphans hUo, hPU]
      rw [runQueryP_cons_ok hbpF]
      rw [ih oU resR hRR]
      rw [List.filter_append]

/-- Every entry the scan loop emits, to found or to the orphan buffer, has
passed the re-check of the unmodified user regex on its decoded path. -/
theorem scanPure_exact (pats : QueryPatterns) (block : Block) (n pos : Nat)
    (hpos : block.length - pos ≤ n) :
    (∀ pr ∈ (scanPure pats block pos).1, pats.exactPattern pr.2.path = true) ∧
    (∀ en ∈ (scanPure pats block pos).2.1, pats.exactPattern en.path = true) := by
  cases hidx : findIdxFrom pats.pattern block pos with
  | none =>
    rw [scanPure_stop hidx]
    simp
  | some j =>
    obtain ⟨hpj, hjlen, -⟩ := findIdxFrom_bounds hidx
    have hn1 : 1 ≤ n := by omega
    have ih := scanPure_exact pats block (n - 1) (j + 1) (by omega)
    by_cases hrec : isPackageRecord (getRec block j) = true
    · rw [scanPure_pkgrec hidx hrec]
      exact ih
    · have hrec2 : isPackageRecord (getRec block j) = false := by simpa using hrec
      cases hfp : pureFindPackage block (j + 1) with
      | error err =>
        rw [scanPure_fp_error hidx hrec2 hfp]
        simp
      | ok r =>
        cases r with
        | none =>
          cases hdec : FileTreeEntry.decode (getRec block j) with
          | none =>
            rw [scanPure_nopkg_badentry hidx hrec2 hfp hdec]
            simp
          | some entry =>
            by_cases hex : pats.exactPattern entry.path = true
            · rw [scanPure_nopkg_orphan hidx hrec2 hfp hdec hex]
              refine ⟨ih.1, ?_⟩
              intro en hen
              rcases List.mem_cons.mp hen with rfl | hen2
              · exact hex
              · exact ih.2 en hen2
            · have hex2 : pats.exactPattern entry.path = false := by simpa using hex
              rw [scanPure_nopkg_noexact hidx hrec2 hfp hdec hex2]
              exact ih
        | some pe =>
          obtain ⟨pkg, e⟩ := pe
          by_cases hpass : shouldSearch pats pkg = true
          · cases hdec : FileTreeEntry.decode (getRec block j) with
            | none =>
              rw [scanPure_accept_badentry hidx hrec2 hfp hpass hdec]
              simp
            | some entry =>
              by_cases hex : pats.exactPattern entry.path = true
              · rw [scanPure_accept_found hidx hrec2 hfp hpass hdec hex]
                refine ⟨?_, ih.2⟩
                intro pr hpr
                rcases List.mem_cons.mp hpr with rfl | hpr2
                · exact hex
                · exact ih.1 pr hpr2
              · have hex2 : pats.exactPattern entry.path = false := by simpa using hex
                rw [scanPure_accept_noexact hidx hrec2 hfp hpass hdec hex2]
                exact ih
          · have hpass2 : shouldSearch pats pkg = false := by simpa using hpass
            rw [scanPure_reject hidx hrec2 hfp hpass2]
            have hje := (pureFindPackage_some hfp).1
            exact scanPure_exact pats block (n - 1) e (by omega)
termination_by n
decreasing_by all_goals omega

theorem processPure_exact (pats : QueryPatterns) (block : Block) (orphans : List FileTreeEntry)
    (horph : ∀ en ∈ orphans, pats.exactPattern en.path = true) :
    (∀ pr ∈ (processPure pats block orphans).1, pats.exactPattern pr.2.path = true) ∧
    (∀ en ∈ (processPure pats block orphans).2.1, pats.exactPattern en.path = true) := by
  have hscan0 := scanPure_exact pats block block.length 0 (by omega)
  simp only [processPure]
  by_cases ho : orphans.isEmpty
  · simp only [if_pos ho]
    exact hscan0
  · simp only [if_neg ho]
    cases hfp : pureFindPackage block 0 with
    | error err =>
      dsimp only
      exact ⟨by simp, horph⟩
    | ok r =>
      cases r with
      | none =>
        dsimp only
        refine ⟨hscan0.1, ?_⟩
        intro en hen
        rcases List.mem_append.mp hen with hen1 | hen2
        · exact horph en hen1
        · exact hscan0.2 en hen2
      | some pe =>
        obtain ⟨pkg, e⟩ := pe
        dsimp only
        by_cases hpass : shouldSearch pats pkg = true
        · rw [if_pos hpass]
          refine ⟨?_, hscan0.2⟩
          intro pr hpr
          rcases List.mem_append.mp hpr with hpr1 | hpr2
          · obtain ⟨en, hen, rfl⟩ := List.mem_map.mp hpr1
            exact horph en hen
          · exact hscan0.1 pr hpr2
        · rw [if_neg hpass]
          exact scanPure_exact pats block block.length e (by omega)

theorem fillBuf_notEmpty (pats : QueryPatterns) (s : IterState)
    (h : s.found.isEmpty = false) : fillBuf pats s = (s, none) := by
  rw [fillBuf.eq_def]
  rw [if_neg (by rw [h]; simp)]

theorem fillBuf_nil (pats : QueryPatterns) (s : IterState)
    (h : s.found.isEmpty = true) (hb : s.blocks = []) : fillBuf pats s = (s, none) := by
  rw [fillBuf.eq_def, if_pos h]
  split
  · rfl
  · rename_i b rest hb2
    rw [hb] at hb2
    cases hb2

theorem fillBuf_cons_err (pats : QueryPatterns) (s : IterState) {b : Block}
    {rest : List Block} {f : List (StorePath × FileTreeEntry)} {o : List FileTreeEntry}
    {e : DatabaseError}
    (h : s.found.isEmpty = true) (hb : s.blocks = b :: rest)
    (hp : processBlockP pats b s.foundWithoutPackage = (f, o, some e)) :
    fillBuf pats s = (⟨rest, s.found ++ f, o⟩, some e) := by
  rw [fillBuf.eq_def, if_pos h]
  split
  · rename_i hb2
    rw [hb] at hb2
    cases hb2
  · rename_i b2 rest2 hb2
    rw [hb] at hb2
    injection hb2 with hb3 hb4
    subst hb3
    subst hb4
    simp only [hp]

theorem fillBuf_cons_ok (pats : QueryPatterns) (s : IterState) {b : Block}
    {rest : List Block} {f : List (StorePath × FileTreeEntry)} {o : List FileTreeEntry}
    (h : s.found.isEmpty = true) (hb : s.blocks = b :: rest)
    (hp : processBlockP pats b s.foundWithoutPackage = (f, o, none)) :
    fillBuf pats s = fillBuf pats ⟨rest, s.found ++ f, o⟩ := by
  rw [fillBuf.eq_def, if_pos h]
  split
  · rename_i hb2
    rw [hb] at hb2
    cases hb2
  · rename_i b2 rest2 hb2
    rw [hb] at hb2
    injection hb2 with hb3 hb4
    subst hb3
    subst hb4
    simp only [hp]

/-- States whose buffered entries all satisfy the exact user pattern. -/
def GoodState (pats : QueryPatterns) (s : IterState) : Prop :=
  (∀ pr ∈ s.found, pats.exactPattern pr.2.path = true) ∧
  (∀ en ∈ s.foundWithoutPackage, pats.exactPattern en.path = true)

theorem GoodState_init (pats : QueryPatterns) (blocks : List Block) :
    GoodState pats (initState blocks) := by
  constructor
  · intro pr hpr
    cases hpr
  · intro en hen
    cases hen

theorem fillBuf_good (pats : QueryPatterns) (s : IterState) (hg : GoodState pats s) :
    GoodState pats (fillBuf pats s).1 := by
  by_cases hf : s.found.isEmpty = true
  · cases hb : s.blocks with
    | nil =>
      rw [fillBuf_nil pats s hf hb]
      exact hg
    | cons b rest =>
      rcases hp : processBlockP pats b s.foundWithoutPackage with ⟨f, o, e?⟩
      have hex0 := processPure_exact pats b s.foundWithoutPackage hg.2
      rw [← processBlockP_eq_pure, hp] at hex0
      have hgood2 : GoodState pats ⟨rest, s.found ++ f, o⟩ := by
        constructor
        · intro pr hpr
          rcases List.mem_append.mp hpr with hpr1 | hpr2
          · exact hg.1 pr hpr1
          · exact hex0.1 pr hpr2
        · intro en hen
          exact hex0.2 en hen
      cases e? with
      | some e =>
        rw [fillBuf_cons_err pats s hf hb hp]
        exact hgood2
      | none =>
        rw [fillBuf_cons_ok pats s hf hb hp]
        exact fillBuf_good pats ⟨rest, s.found ++ f, o⟩ hgood2
  · rw [fillBuf_notEmpty pats s (by simpa using hf)]
    exact hg
termination_by s.blocks.length
decreasing_by simp [hb]

/- Regex abstract syntax, after regex_syntax::Expr as used by Query::run:
the anchor rewrite only inspects StartText, Group, Repeat, Concat and
Alternate; every other constructor is left untouched, so the remaining
leaves are collapsed into the representative leaves below.  Concat and
Alternate carry lists, modelled by the mutual type ExprList. -/
mutual
inductive Expr where
  | empty
  | literalBytes (bytes : List Nat) (casei : Bool)
  | anyByte
  | startText
  | endText
  | group (e : Expr)
  | rep (e : Expr) (greedy : Bool)
  | concat (es : ExprList)
  | alternate (es : ExprList)
inductive ExprList where
  | nil
  | cons (e : Expr) (es : ExprList)
end

/- The anchor rewrite of Query::run: replace every StartText by the literal
NUL byte, descending into groups, repeats, concatenations and alternations
(the Rust code does this with an explicit work stack over mutable
references; the traversal visits exactly the subterms below). -/
mutual
def rewriteAnchors : Expr → Expr
  | .startText => .literalBytes [0] false
  | .group e => .group (rewriteAnchors e)
  | .rep e g => .rep (rewriteAnchors e) g
  | .concat es => .concat (rewriteAnchorsList es)
  | .alternate es => .alternate (rewriteAnchorsList es)
  | e => e
def rewriteAnchorsList : ExprList → ExprList
  | .nil => .nil
  | .cons e es => .cons (rewriteAnchors e) (rewriteAnchorsList es)
end

/- Whether a start-of-text anchor occurs anywhere in the expression. -/
mutual
def hasStartText : Expr → Bool
  | .startText => true
  | .group e => hasStartText e
  | .rep e _ => hasStartText e
  | .concat es => hasStartTextList es
  | .alternate es => hasStartTextList es
  | _ => false
def hasStartTextList : ExprList → Bool
  | .nil => false
  | .cons e es => hasStartText e || hasStartTextList es
end

mutual
theorem rewriteAnchors_id : ∀ e : Expr, hasStartText e = false → rewriteAnchors e = e
  | .empty, _ => rfl
  | .literalBytes bs c, _ => rfl
  | .anyByte, _ => rfl
  | .startText, h => by cases h
  | .endText, _ => rfl
  | .group e, h => by
    rw [rewriteAnchors, rewriteAnchors_id e (by simpa [hasStartText] using h)]
  | .rep e g, h => by
    rw [rewriteAnchors, rewriteAnchors_id e (by simpa [hasStartText] using h)]
  | .concat es, h => by
    rw [rewriteAnchors, rewriteAnchorsList_id es (by simpa [hasStartText] using h)]
  | .alternate es, h => by
    rw [rewriteAnchors, rewriteAnchorsList_id es (by simpa [hasStartText] using h)]
theorem rewriteAnchorsList_id : ∀ es : ExprList, hasStartTextList es = false →
    rewriteAnchorsList es = es
  | .nil, _ => rfl
  | .cons e es, h => by
    have h2 : hasStartText e = false ∧ hasStartTextList es = false := by
      simpa [hasStartTextList] using h
    rw [rewriteAnchorsList, rewriteAnchors_id e h2.1, rewriteAnchorsList_id es h2.2]
end

mutual
theorem rewriteAnchors_clean : ∀ e : Expr, hasStartText (rewriteAnchors e) = false
  | .empty => rfl
  | .literalBytes bs c => rfl
  | .anyByte => rfl
  | .startText => rfl
  | .endText => rfl
  | .group e => by
    rw [rewriteAnchors, hasStartText, rewriteAnchors_clean e]
  | .rep e g => by
    rw [rewriteAnchors, hasStartText, rewriteAnchors_clean e]
  | .concat es => by
    rw [rewriteAnchors, hasStartText, rewriteAnchorsList_clean es]
  | .alternate es => by
    rw [rewriteAnchors, hasStartText, rewriteAnchorsList_clean es]
theorem rewriteAnchorsList_clean : ∀ es : ExprList,
    hasStartTextList (rewriteAnchorsList es) = false
  | .nil => rfl
  | .cons e es => by
    rw [rewriteAnchorsList, hasStartTextList, rewriteAnchors_clean e,
      rewriteAnchorsList_clean es]
    rfl
end

/-- ASCII lower-casing of one byte, for case-insensitive literals. -/
def foldCase (b : Nat) : Nat :=
  if 65 ≤ b ∧ b ≤ 90 then b + 32 else b

/-- Byte-level literal matching: exact equality, or equality up to ASCII
case when the casei flag is set. -/
def litMatches (casei : Bool) (bs sl : List Nat) : Bool :=
  if casei then sl.map foldCase == bs.map foldCase else sl == bs

/- Spans of a byte text accepted by an expression: Accepts e t i j holds
when e matches t between byte offsets i and j.  StartText is zero width
and only matches at offset 0; EndText only at the end of the text. -/
mutual
inductive Accepts : Expr → List Nat → Nat → Nat → Prop where
  | empty (t : List Nat) (i : Nat) : Accepts .empty t i i
  | lit (casei : Bool) (bs t : List Nat) (i : Nat)
      (h : litMatches casei bs ((t.drop i).take bs.length) = true)
      (hle : i + bs.length ≤ t.length) :
      Accepts (.literalBytes bs casei) t i (i + bs.length)
  | anyByte (t : List Nat) (i : Nat) (h : i < t.length) : Accepts .anyByte t i (i + 1)
  | startText (t : List Nat) : Accepts .startText t 0 0
  | endText (t : List Nat) : Accepts .endText t t.length t.length
  | group {e : Expr} {t : List Nat} {i j : Nat} (h : Accepts e t i j) :
      Accepts (.group e) t i j
  | repZero (e : Expr) (g : Bool) (t : List Nat) (i : Nat) : Accepts (.rep e g) t i i
  | repMore {e : Expr} {g : Bool} {t : List Nat} {i j k : Nat}
      (h1 : Accepts e t i j) (h2 : Accepts (.rep e g) t j k) : Accepts (.rep e g) t i k
  | concat {es : ExprList} {t : List Nat} {i j : Nat} (h : AcceptsL es t i j) :
      Accepts (.concat es) t i j
  | altHere {e : Expr} {es : ExprList} {t : List Nat} {i j : Nat}
      (h : Accepts e t i j) : Accepts (.alternate (.cons e es)) t i j
  | altThere {e : Expr} {es : ExprList} {t : List Nat} {i j : Nat}
      (h : Accepts (.alternate es) t i j) : Accepts (.alternate (.cons e es)) t i j
inductive AcceptsL : ExprList → List Nat → Nat → Nat → Prop where
  | nil (t : List Nat) (i : Nat) : AcceptsL .nil t i i
  | cons {e : Expr} {es : ExprList} {t : List Nat} {i j k : Nat}
      (h1 : Accepts e t i j) (h2 : AcceptsL es t j k) : AcceptsL (.cons e es) t i k
end

/-- The regex matches somewhere in the text. -/
def isMatch (e : Expr) (t : List Nat) : Prop :=
  ∃ i j, Accepts e t i j

/-- The parsed form of the user regex caret slash b i n slash: a start-text
anchor followed by the literal /bin/ (bytes 47 98 105 110 47). -/
def anchoredBin : Expr :=
  .concat (.cons .startText (.cons (.literalBytes [47, 98, 105, 110, 47] false) .nil))

/-- The path /bin/ls as bytes. -/
def pathBinLs : List Nat := [47, 98, 105, 110, 47, 108, 115]

/-- The path /usr/bin/ls as bytes. -/
def pathUsrBinLs : List Nat := [47, 117, 115, 114, 47, 98, 105, 110, 47, 108, 115]

theorem anchoredBin_matches : isMatch anchoredBin pathBinLs := by
  refine ⟨0, 5, ?_⟩
  apply Accepts.concat
  apply AcceptsL.cons (Accepts.startText pathBinLs)
  have h5 : (5 : Nat) = 0 + [47, 98, 105, 110, 47].length := by decide
  apply AcceptsL.cons (j := 5)
  · rw [h5]
    exact Accepts.lit false [47, 98, 105, 110, 47] pathBinLs 0 (by decide) (by decide)
  · exact AcceptsL.nil pathBinLs 5

theorem anchoredBin_no_match : ¬ isMatch anchoredBin pathUsrBinLs := by
  rintro ⟨i, j, h⟩
  cases h with
  | concat hL =>
    cases hL with
    | cons h1 h2 =>
      cases h1
      cases h2 with
      | cons h3 h4 =>
        cases h3
        rename_i hm hle
        revert hm hle
        decide

theorem pureFindPackage_eval_some {block : Block} {i j : Nat} {pkg : StorePath}
    (hidx : findIdxFrom isPackageRecord block i = some j)
    (hp : parseStorePath ((getRec block j).drop 2) = some pkg) :
    pureFindPackage block i = .ok (some (pkg, j + 1)) := by
  rw [pureFindPackage]
  simp only [hidx, hp]

theorem pureFindPackage_eval_none {block : Block} {i : Nat}
    (hidx : findIdxFrom isPackageRecord block i = none) :
    pureFindPackage block i = .ok none := by
  rw [pureFindPackage]
  simp only [hidx]

theorem findIdxFrom_true (block : Block) (i : Nat) :
    findIdxFrom (fun _ => true) block i = if i < block.length then some i else none := by
  rw [findIdxFrom]
  by_cases h : i < block.length
  · rw [dif_pos h, if_pos rfl, if_pos h]
  · rw [dif_neg h, if_neg h]

/- Concrete test data: two packages P and Q with a well-formed file record
for path /a and a malformed file record (bad metadata type byte), used by
the concrete scenarios of several claims.  A query pattern that matches
every record and every path, plus variants with a hash bound. -/

/-- Query with no package bounds whose patterns match everything. -/
def patsAll : QueryPatterns := ⟨fun _ => true, fun _ => true, none, none⟩

/-- Same patterns, bounded to the package hash of pkgQ. -/
def patsHashQ : QueryPatterns := ⟨fun _ => true, fun _ => true, none, some [104, 50]⟩

/-- Same patterns, bounded to the package hash of pkgP. -/
def patsHashP : QueryPatterns := ⟨fun _ => true, fun _ => true, none, some [104, 49]⟩

/-- Package P: hash bytes h1, name bytes n1. -/
def pkgP : StorePath := ⟨[104, 49], [110, 49]⟩

/-- Package Q: hash bytes h2, name bytes n2. -/
def pkgQ : StorePath := ⟨[104, 50], [110, 50]⟩

/-- The package record of P. -/
def precP : Rec := [112, 0, 104, 49, 32, 110, 49]

/-- The package record of Q. -/
def precQ : Rec := [112, 0, 104, 50, 32, 110, 50]

/-- A well-formed file record: f NUL r 1 NUL /a (regular, size 1). -/
def fGood : Rec := [102, 0, 114, 49, 0, 47, 97]

/-- A malformed file record: its metadata type byte q is invalid. -/
def fBad : Rec := [102, 0, 113, 0, 47, 98]

/-- The decoding of fGood. -/
def entryGood : FileTreeEntry := ⟨[47, 97], .regular 1 false⟩

theorem evalScanGood : scanPure patsAll [fGood] 0 = ([], [entryGood], none) := by
  have h0 : findIdxFrom (fun _ => true) [fGood] 0 = some 0 := by
    rw [findIdxFrom_true]
    decide
  have h1 : findIdxFrom (fun _ => true) [fGood] 1 = none := by
    rw [findIdxFrom_true]
    decide
  have hfp : pureFindPackage [fGood] 1 = .ok none := by
    apply pureFindPackage_eval_none
    rw [findIdxFrom]
    decide
  have hrec : isPackageRecord (getRec [fGood] 0) = false := by decide
  have hdec : FileTreeEntry.decode (getRec [fGood] 0) = some entryGood := by decide
  rw [scanPure_nopkg_orphan h0 hrec hfp hdec (by decide), scanPure_stop h1]

theorem evalScanP : scanPure patsAll [precP] 0 = ([], [], none) := by
  have h0 : findIdxFrom (fun _ => true) [precP] 0 = some 0 := by
    rw [findIdxFrom_true]
    decide
  have h1 : findIdxFrom (fun _ => true) [precP] 1 = none := by
    rw [findIdxFrom_true]
    decide
  have hrec : isPackageRecord (getRec [precP] 0) = true := by decide
  rw [scanPure_pkgrec h0 hrec, scanPure_stop h1]

theorem evalProcGood : processBlockP patsAll [fGood] [] = ([], [entryGood], none) := by
  rw [processBlockP_eq_pure, processPure,
    if_pos (show (List.isEmpty ([] : List FileTreeEntry)) = true from rfl)]
  exact evalScanGood

theorem evalProcP : processBlockP patsAll [precP] [entryGood] = ([(pkgP, entryGood)], [], none) := by
  rw [processBlockP_eq_pure, processPure, if_neg (by decide)]
  have hidxP : findIdxFrom isPackageRecord [precP] 0 = some 0 := by
    rw [findIdxFrom]
    decide
  have hparse : parseStorePath ((getRec [precP] 0).drop 2) = some pkgP := by decide
  rw [pureFindPackage_eval_some hidxP hparse]
  dsimp only
  rw [if_pos (show shouldSearch patsAll pkgP = true from rfl), evalScanP]
  rfl

/-- A block whose boundary was laid before the owning package record of
fGood: the next block starts with the package record of P. -/
theorem evalFillOrphan : fillBuf patsAll (initState [[fGood], [precP]]) =
    (⟨[], [(pkgP, entryGood)], []⟩, none) := by
  rw [fillBuf_cons_ok patsAll (initState [[fGood], [precP]]) rfl rfl evalProcGood]
  show fillBuf patsAll ⟨[[precP]], [], [entryGood]⟩ = (⟨[], [(pkgP, entryGood)], []⟩, none)
  rw [fillBuf_cons_ok patsAll ⟨[[precP]], [], [entryGood]⟩ rfl rfl evalProcP]
  show fillBuf patsAll ⟨[], [(pkgP, entryGood)], []⟩ = (⟨[], [(pkgP, entryGood)], []⟩, none)
  exact fillBuf_notEmpty patsAll ⟨[], [(pkgP, entryGood)], []⟩ rfl

theorem evalNextOrphan1 : next patsAll (initState [[fGood], [precP]]) =
    (⟨[], [], []⟩, some (.ok (pkgP, entryGood))) := by
  simp only [next, evalFillOrphan]
  rfl

theorem evalNextOrphan2 : next patsAll ⟨[], [], []⟩ = (⟨[], [], []⟩, none) := by
  have hfb := fillBuf_nil patsAll ⟨[], [], []⟩ rfl rfl
  simp only [next, hfb]
  rfl

theorem evalFillMissing : fillBuf patsAll (initState [[fGood]]) =
    (⟨[], [], [entryGood]⟩, none) := by
  rw [fillBuf_cons_ok patsAll (initState [[fGood]]) rfl rfl evalProcGood]
  show fillBuf patsAll ⟨[], [], [entryGood]⟩ = (⟨[], [], [entryGood]⟩, none)
  exact fillBuf_nil patsAll ⟨[], [], [entryGood]⟩ rfl rfl

theorem evalNextMissing : next patsAll (initState [[fGood]]) =
    (⟨[], [], [entryGood]⟩, none) := by
  simp only [next, evalFillMissing]
  rfl

/-- The block used by the error-propagation scenario: a good match in
package P, then a malformed matching record in package Q. -/
def blockC7 : Block := [fGood, precP, fBad, precQ]

theorem evalScanC7 : scanPure patsAll blockC7 0 =
    ([(pkgP, entryGood)], [], some (.EntryParse fBad)) := by
  have h0 : findIdxFrom (fun _ => true) blockC7 0 = some 0 := by
    rw [findIdxFrom_true]
    decide
  have h1 : findIdxFrom (fun _ => true) blockC7 1 = some 1 := by
    rw [findIdxFrom_true]
    decide
  have h2 : findIdxFrom (fun _ => true) blockC7 2 = some 2 := by
    rw [findIdxFrom_true]
    decide
  have hi1 : findIdxFrom isPackageRecord blockC7 1 = some 1 := by
    rw [findIdxFrom]
    decide
  have hi3 : findIdxFrom isPackageRecord blockC7 3 = some 3 := by
    rw [findIdxFrom]
    decide
  have hfp1 : pureFindPackage blockC7 1 = .ok (some (pkgP, 2)) :=
    pureFindPackage_eval_some hi1 (by decide)
  have hfp3 : pureFindPackage blockC7 3 = .ok (some (pkgQ, 4)) :=
    pureFindPackage_eval_some hi3 (by decide)
  have hdec0 : FileTreeEntry.decode (getRec blockC7 0) = some entryGood := by decide
  have hdec2 : FileTreeEntry.decode (getRec blockC7 2) = none := by decide
  rw [scanPure_accept_found h0 (by decide) hfp1 (by decide) hdec0 (by decide)]
  rw [scanPure_pkgrec h1 (by decide)]
  rw [scanPure_accept_badentry h2 (by decide) hfp3 (by decide) hdec2]
  rfl

theorem evalProcC7 : processBlockP patsAll blockC7 [] =
    ([(pkgP, entryGood)], [], some (.EntryParse fBad)) := by
  rw [processBlockP_eq_pure, processPure,
    if_pos (show (List.isEmpty ([] : List FileTreeEntry)) = true from rfl)]
  exact evalScanC7

theorem evalFillC7 : fillBuf patsAll (initState [blockC7]) =
    (⟨[], [(pkgP, entryGood)], []⟩, some (.EntryParse fBad)) := by
  rw [fillBuf_cons_err patsAll (initState [blockC7]) rfl rfl evalProcC7]
  rfl

theorem evalNextC7a : next patsAll (initState [blockC7]) =
    (⟨[], [(pkgP, entryGood)], []⟩, some (.error (.EntryParse fBad))) := by
  simp only [next, evalFillC7]

theorem evalNextC7b : next patsAll ⟨[], [(pkgP, entryGood)], []⟩ =
    (⟨[], [], []⟩, some (.ok (pkgP, entryGood))) := by
  have hfb := fillBuf_notEmpty patsAll ⟨[], [(pkgP, entryGood)], []⟩ rfl
  simp only [next, hfb]
  rfl

/-- The block used by the filter-composition counterexample: a malformed
matching record in rejected package P, then a good match in accepted
package Q. -/
def blockC4 : Block := [fBad, precP, fGood, precQ]

theorem evalScanC4U : scanPure (stripBounds patsHashQ) blockC4 0 =
    ([], [], some (.EntryParse fBad)) := by
  have h0 : findIdxFrom (fun _ => true) blockC4 0 = some 0 := by
    rw [findIdxFrom_true]
    decide
  have hi1 : findIdxFrom isPackageRecord blockC4 1 = some 1 := by
    rw [findIdxFrom]
    decide
  have hfp1 : pureFindPackage blockC4 1 = .ok (some (pkgP, 2)) :=
    pureFindPackage_eval_some hi1 (by decide)
  have hdec0 : FileTreeEntry.decode (getRec blockC4 0) = none := by decide
  rw [scanPure_accept_badentry h0 (by decide) hfp1 (by decide) hdec0]
  rfl

theorem evalScanC4F : scanPure patsHashQ blockC4 0 = ([(pkgQ, entryGood)], [], none) := by
  have h0 : findIdxFrom (fun _ => true) blockC4 0 = some 0 := by
    rw [findIdxFrom_true]
    decide
  have h2 : findIdxFrom (fun _ => true) blockC4 2 = some 2 := by
    rw [findIdxFrom_true]
    decide
  have h3 : findIdxFrom (fun _ => true) blockC4 3 = some 3 := by
    rw [findIdxFrom_true]
    decide
  have h4 : findIdxFrom (fun _ => true) blockC4 4 = none := by
    rw [findIdxFrom_true]
    decide
  have hi1 : findIdxFrom isPackageRecord blockC4 1 = some 1 := by
    rw [findIdxFrom]
    decide
  have hi3 : findIdxFrom isPackageRecord blockC4 3 = some 3 := by
    rw [findIdxFrom]
    decide
  have hfp1 : pureFindPackage blockC4 1 = .ok (some (pkgP, 2)) :=
    pureFindPackage_eval_some hi1 (by decide)
  have hfp3 : pureFindPackage blockC4 3 = .ok (some (pkgQ, 4)) :=
    pureFindPackage_eval_some hi3 (by decide)
  have hdec2 : FileTreeEntry.decode (getRec blockC4 2) = some entryGood := by decide
  rw [scanPure_reject h0 (by decide) hfp1 (by decide)]
  rw [scanPure_accept_found h2 (by decide) hfp3 (by decide) hdec2 (by decide)]
  rw [scanPure_pkgrec h3 (by decide)]
  rw [scanPure_stop h4]

theorem evalRunC4U : runQueryP (stripBounds patsHashQ) [blockC4] [] =
    ([], some (.EntryParse fBad)) := by
  have hproc : processBlockP (stripBounds patsHashQ) blockC4 [] =
      ([], [], some (.EntryParse fBad)) := by
    rw [processBlockP_eq_pure, processPure,
      if_pos (show (List.isEmpty ([] : List FileTreeEntry)) = true from rfl)]
    exact evalScanC4U
  rw [runQueryP_cons_err hproc]

theorem evalRunC4F : runQueryP patsHashQ [blockC4] [] = ([(pkgQ, entryGood)], none) := by
  have hproc : processBlockP patsHashQ blockC4 [] = ([(pkgQ, entryGood)], [], none) := by
    rw [processBlockP_eq_pure, processPure,
      if_pos (show (List.isEmpty ([] : List FileTreeEntry)) = true from rfl)]
    exact evalScanC4F
  rw [runQueryP_cons_ok hproc]
  rfl

theorem evalRunC4W : runQueryP (stripBounds patsHashQ) [[fGood, precP]] [] =
    ([(pkgP, entryGood)], none) := by
  have h0 : findIdxFrom (fun _ => true) [fGood, precP] 0 = some 0 := by
    rw [findIdxFrom_true]
    decide
  have h1 : findIdxFrom (fun _ => true) [fGood, precP] 1 = some 1 := by
    rw [findIdxFrom_true]
    decide
  have h2 : findIdxFrom (fun _ => true) [fGood, precP] 2 = none := by
    rw [findIdxFrom_true]
    decide
  have hi1 : findIdxFrom isPackageRecord [fGood, precP] 1 = some 1 := by
    rw [findIdxFrom]
    decide
  have hfp1 : pureFindPackage [fGood, precP] 1 = .ok (some (pkgP, 2)) :=
    pureFindPackage_eval_some hi1 (by decide)
  have hdec0 : FileTreeEntry.decode (getRec [fGood, precP] 0) = some entryGood := by decide
  have hscan : scanPure (stripBounds patsHashQ) [fGood, precP] 0 =
      ([(pkgP, entryGood)], [], none) := by
    rw [scanPure_accept_found h0 (by decide) hfp1 (by decide) hdec0 (by decide)]
    rw [scanPure_pkgrec h1 (by decide)]
    rw [scanPure_stop h2]
  have hproc : processBlockP (stripBounds patsHashQ) [fGood, precP] [] =
      ([(pkgP, entryGood)], [], none) := by
    rw [processBlockP_eq_pure, processPure,
      if_pos (show (List.isEmpty ([] : List FileTreeEntry)) = true from rfl)]
    exact hscan
  rw [runQueryP_cons_ok hproc]
  rfl

/-- The block used by the filter-before-decode scenario: a malformed
matching record owned by package P. -/
def blockC10 : Block := [fBad, precP]

theorem evalScanC10R : scanPure patsHashQ blockC10 0 = ([], [], none) := by
  have h0 : findIdxFrom (fun _ => true) blockC10 0 = some 0 := by
    rw [findIdxFrom_true]
    decide
  have h2 : findIdxFrom (fun _ => true) blockC10 2 = none := by
    rw [findIdxFrom_true]
    decide
  have hi1 : findIdxFrom isPackageRecord blockC10 1 = some 1 := by
    rw [findIdxFrom]
    decide
  have hfp1 : pureFindPackage blockC10 1 = .ok (some (pkgP, 2)) :=
    pureFindPackage_eval_some hi1 (by decide)
  rw [scanPure_reject h0 (by decide) hfp1 (by decide)]
  rw [scanPure_stop h2]

theorem evalScanC10A : scanPure patsHashP blockC10 0 = ([], [], some (.EntryParse fBad)) := by
  have h0 : findIdxFrom (fun _ => true) blockC10 0 = some 0 := by
    rw [findIdxFrom_true]
    decide
  have hi1 : findIdxFrom isPackageRecord blockC10 1 = some 1 := by
    rw [findIdxFrom]
    decide
  have hfp1 : pureFindPackage blockC10 1 = .ok (some (pkgP, 2)) :=
    pureFindPackage_eval_some hi1 (by decide)
  have hdec0 : FileTreeEntry.decode (getRec blockC10 0) = none := by decide
  rw [scanPure_accept_badentry h0 (by decide) hfp1 (by decide) hdec0]
  rfl

theorem evalRunC10R : runQueryP patsHashQ [blockC10] [] = ([], none) := by
  have hproc : processBlockP patsHashQ blockC10 [] = ([], [], none) := by
    rw [processBlockP_eq_pure, processPure,
      if_pos (show (List.isEmpty ([] : List FileTreeEntry)) = true from rfl)]
    exact evalScanC10R
  rw [runQueryP_cons_ok hproc]
  rfl

theorem evalRunC10A : runQueryP patsHashP [blockC10] [] = ([], some (.EntryParse fBad)) := by
  have hproc : processBlockP patsHashP blockC10 [] = ([], [], some (.EntryParse fBad)) := by
    rw [processBlockP_eq_pure, processPure,
      if_pos (show (List.isEmpty ([] : List FileTreeEntry)) = true from rfl)]
    exact evalScanC10A
  rw [runQueryP_cons_err hproc]

/-- A sequence of find_package queries with state threaded through, as the
scan loop performs them. -/
def findPackageRun (block : Block) : FPState → List Nat →
    Except DatabaseError (List (Option (StorePath × Nat)))
  | _, [] => .ok []
  | st, i :: is =>
    match findPackage block st i with
    | .error e => .error e
    | .ok (r, st1) => (findPackageRun block st1 is).map (fun rs => r :: rs)

/-- The same queries answered by the uncached forward scan. -/
def pureFindRun (block : Block) : List Nat →
    Except DatabaseError (List (Option (StorePath × Nat)))
  | [] => .ok []
  | i :: is =>
    match pureFindPackage block i with
    | .error e => .error e
    | .ok r => (pureFindRun block is).map (fun rs => r :: rs)

theorem findPackageRun_eq_pure (block : Block) :
    ∀ offs (m : Nat) (st : FPState), FPValid block m st →
      List.Chain' (· ≤ ·) (m :: offs) →
      findPackageRun block st offs = pureFindRun block offs := by
  intro offs
  induction offs with
  | nil =>
    intro m st hv hch
    rfl
  | cons i is ih =>
    intro m st hv hch
    have hmi : m ≤ i := (List.chain'_cons.mp hch).1
    have hch2 : List.Chain' (· ≤ ·) (i :: is) := (List.chain'_cons.mp hch).2
    have hstep := findPackage_pure hv hmi
    cases hfp : pureFindPackage block i with
    | error e =>
      simp only [findPackageRun, pureFindRun, hstep.1 e hfp, hfp]
    | ok r =>
      obtain ⟨st1, h1, hv1⟩ := hstep.2 r hfp
      simp only [findPackageRun, pureFindRun, h1, hfp]
      rw [ih i st1 hv1 hch2]

theorem findPackageRun_init (block : Block) (offs : List Nat)
    (hch : List.Chain' (· ≤ ·) offs) :
    findPackageRun block FPState.init offs = pureFindRun block offs := by
  apply findPackageRun_eq_pure block offs 0 FPState.init (FPValid_init block 0)
  cases offs with
  | nil => simp
  | cons i is => exact List.chain'_cons.mpr ⟨Nat.zero_le i, hch⟩

/-- The scan loop emits at most one buffered entry per remaining record:
termination and output size are bounded by the block length. -/
theorem scanPure_bound (pats : QueryPatterns) (block : Block) (n pos : Nat)
    (hpos : block.length - pos ≤ n) :
    (scanPure pats block pos).1.length + (scanPure pats block pos).2.1.length ≤
      block.length - pos := by
  cases hidx : findIdxFrom pats.pattern block pos with
  | none =>
    rw [scanPure_stop hidx]
    simp
  | some j =>
    obtain ⟨hpj, hjlen, -⟩ := findIdxFrom_bounds hidx
    have hn1 : 1 ≤ n := by omega
    by_cases hrec : isPackageRecord (getRec block j) = true
    · rw [scanPure_pkgrec hidx hrec]
      have := scanPure_bound pats block (n - 1) (j + 1) (by omega)
      omega
    · have hrec2 : isPackageRecord (getRec block j) = false := by simpa using hrec
      cases hfp : pureFindPackage block (j + 1) with
      | error err =>
        rw [scanPure_fp_error hidx hrec2 hfp]
        simp
      | ok r =>
        cases r with
        | none =>
          cases hdec : FileTreeEntry.decode (getRec block j) with
          | none =>
            rw [scanPure_nopkg_badentry hidx hrec2 hfp hdec]
            simp
          | some entry =>
            by_cases hex : pats.exactPattern entry.path = true
            · rw [scanPure_nopkg_orphan hidx hrec2 hfp hdec hex]
              have := scanPure_bound pats block (n - 1) (j + 1) (by omega)
              simp only [List.length_cons]
              omega
            · have hex2 : pats.exactPattern entry.path = false := by simpa using hex
              rw [scanPure_nopkg_noexact hidx hrec2 hfp hdec hex2]
              have := scanPure_bound pats block (n - 1) (j + 1) (by omega)
              omega
        | some pe =>
          obtain ⟨pkg, e⟩ := pe
          by_cases hpass : shouldSearch pats pkg = true
          · cases hdec : FileTreeEntry.decode (getRec block j) with
            | none =>
              rw [scanPure_accept_badentry hidx hrec2 hfp hpass hdec]
              simp
            | some entry =>
              by_cases hex : pats.exactPattern entry.path = true
              · rw [scanPure_accept_found hidx hrec2 hfp hpass hdec hex]
                have := scanPure_bound pats block (n - 1) (j + 1) (by omega)
                simp only [List.length_cons]
                omega
              · have hex2 : pats.exactPattern entry.path = false := by simpa using hex
                rw [scanPure_accept_noexact hidx hrec2 hfp hpass hdec hex2]
                have := scanPure_bound pats block (n - 1) (j + 1) (by omega)
                omega
          · have hpass2 : shouldSearch pats pkg = false := by simpa using hpass
            rw [scanPure_reject hidx hrec2 hfp hpass2]
            have hje := (pureFindPackage_some hfp).1
            have := scanPure_bound pats block (n - 1) e (by omega)
            omega
termination_by n
decreasing_by all_goals omega

/-- Every emitted entry, buffered for output or as orphan, is the decoding
of a whole record of the block at or after the scan position that passed
the exact-pattern re-check: results are never raw match spans. -/
theorem scanPure_src (pats : QueryPatterns) (block : Block) (n pos : Nat)
    (hpos : block.length - pos ≤ n) :
    (∀ pr ∈ (scanPure pats block pos).1, ∃ j, pos ≤ j ∧ j < block.length ∧
      FileTreeEntry.decode (getRec block j) = some pr.2 ∧
      pats.exactPattern pr.2.path = true) ∧
    (∀ en ∈ (scanPure pats block pos).2.1, ∃ j, pos ≤ j ∧ j < block.length ∧
      FileTreeEntry.decode (getRec block j) = some en ∧
      pats.exactPattern en.path = true) := by
  cases hidx : findIdxFrom pats.pattern block pos with
  | none =>
    rw [scanPure_stop hidx]
    simp
  | some j =>
    obtain ⟨hpj, hjlen, -⟩ := findIdxFrom_bounds hidx
    have hn1 : 1 ≤ n := by omega
    by_cases hrec : isPackageRecord (getRec block j) = true
    · rw [scanPure_pkgrec hidx hrec]
      have ih := scanPure_src pats block (n - 1) (j + 1) (by omega)
      constructor
      · intro pr hpr
        obtain ⟨j2, hj2, hlt, hd, he⟩ := ih.1 pr hpr
        exact ⟨j2, by omega, hlt, hd, he⟩
      · intro en hen
        obtain ⟨j2, hj2, hlt, hd, he⟩ := ih.2 en hen
        exact ⟨j2, by omega, hlt, hd, he⟩
    · have hrec2 : isPackageRecord (getRec block j) = false := by simpa using hrec
      cases hfp : pureFindPackage block (j + 1) with
      | error err =>
        rw [scanPure_fp_error hidx hrec2 hfp]
        simp
      | ok r =>
        cases r with
        | none =>
          cases hdec : FileTreeEntry.decode (getRec block j) with
          | none =>
            rw [scanPure_nopkg_badentry hidx hrec2 hfp hdec]
            simp
          | some entry =>
            have ih := scanPure_src pats block (n - 1) (j + 1) (by omega)
            by_cases hex : pats.exactPattern entry.path = true
            · rw [scanPure_nopkg_orphan hidx hrec2 hfp hdec hex]
              constructor
              · intro pr hpr
                obtain ⟨j2, hj2, hlt, hd, he⟩ := ih.1 pr hpr
                exact ⟨j2, by omega, hlt, hd, he⟩
              · intro en hen
                rcases List.mem_cons.mp hen with rfl | hen2
                · exact ⟨j, by omega, hjlen, hdec, hex⟩
                · obtain ⟨j2, hj2, hlt, hd, he⟩ := ih.2 en hen2
                  exact ⟨j2, by omega, hlt, hd, he⟩
            · have hex2 : pats.exactPattern entry.path = false := by simpa using hex
              rw [scanPure_nopkg_noexact hidx hrec2 hfp hdec hex2]
              constructor
              · intro pr hpr
                obtain ⟨j2, hj2, hlt, hd, he⟩ := ih.1 pr hpr
                exact ⟨j2, by omega, hlt, hd, he⟩
              · intro en hen
                obtain ⟨j2, hj2, hlt, hd, he⟩ := ih.2 en hen
                exact ⟨j2, by omega, hlt, hd, he⟩
        | some pe =>
          obtain ⟨pkg, e⟩ := pe
          by_cases hpass : shouldSearch pats pkg = true
          · cases hdec : FileTreeEntry.decode (getRec block j) with
            | none =>
              rw [scanPure_accept_badentry hidx hrec2 hfp hpass hdec]
              simp
            | some entry =>
              have ih := scanPure_src pats block (n - 1) (j + 1) (by omega)
              by_cases hex : pats.exactPattern entry.path = true
              · rw [scanPure_accept_found hidx hrec2 hfp hpass hdec hex]
                constructor
                · intro pr hpr
                  rcases List.mem_cons.mp hpr with rfl | hpr2
                  · exact ⟨j, by omega, hjlen, hdec, hex⟩
                  · obtain ⟨j2, hj2, hlt, hd, he⟩ := ih.1 pr hpr2
                    exact ⟨j2, by omega, hlt, hd, he⟩
                · intro en hen
                  obtain ⟨j2, hj2, hlt, hd, he⟩ := ih.2 en hen
                  exact ⟨j2, by omega, hlt, hd, he⟩
              · have hex2 : pats.exactPattern entry.path = false := by simpa using hex
                rw [scanPure_accept_noexact hidx hrec2 hfp hpass hdec hex2]
                constructor
                · intro pr hpr
                  obtain ⟨j2, hj2, hlt, hd, he⟩ := ih.1 pr hpr
                  exact ⟨j2, by omega, hlt, hd, he⟩
                · intro en hen
                  obtain ⟨j2, hj2, hlt, hd, he⟩ := ih.2 en hen
                  exact ⟨j2, by omega, hlt, hd, he⟩
          · have hpass2 : shouldSearch pats pkg = false := by simpa using hpass
            rw [scanPure_reject hidx hrec2 hfp hpass2]
            have hje := (pureFindPackage_some hfp).1
            have ih := scanPure_src pats block (n - 1) e (by omega)
            constructor
            · intro pr hpr
              obtain ⟨j2, hj2, hlt, hd, he⟩ := ih.1 pr hpr
              exact ⟨j2, by omega, hlt, hd, he⟩
            · intro en hen
              obtain ⟨j2, hj2, hlt, hd, he⟩ := ih.2 en hen
              exact ⟨j2, by omega, hlt, hd, he⟩
termination_by n
decreasing_by all_goals omega

/-- C1: the spec requires that reaching end of input with orphan file
entries still buffered surfaces the MissingPackageEntry error, and the
code declares that error variant for exactly this purpose, but fill_buf
returns Ok on an empty decoded block without checking
found_without_package, so the iterator ends silently: on a database whose
single block holds one matching file entry and no package record, next
returns none (end of iteration) while an orphan entry is still buffered,
and no error is ever yielded. -/
theorem missingPackageEntry_never_raised :
    next patsAll (initState [[fGood]]) = (⟨[], [], [entryGood]⟩, none) ∧
    (⟨[], [], [entryGood]⟩ : IterState).foundWithoutPackage ≠ [] :=
  ⟨evalNextMissing, by decide⟩

/-- C2: every (store path, entry) pair the iterator yields has a path
matching the unmodified user regex: from any state whose buffers satisfy
the exact pattern (as the initial state trivially does), a successful
next yields an entry whose decoded path passes the exact re-check, and
the property is preserved; package records are skipped before decoding
and candidates failing the path re-check are discarded, so a package
record whose payload contains a path-like substring is never surfaced. -/
theorem yielded_paths_match_exact (pats : QueryPatterns) (s s' : IterState)
    (sp : StorePath) (entry : FileTreeEntry) (hg : GoodState pats s)
    (hn : next pats s = (s', some (.ok (sp, entry)))) :
    pats.exactPattern entry.path = true ∧ GoodState pats s' := by
  rcases hfb : fillBuf pats s with ⟨s1, e?⟩
  have hgood1 : GoodState pats s1 := by
    have hgb := fillBuf_good pats s hg
    rw [hfb] at hgb
    exact hgb
  cases e? with
  | some e =>
    simp only [next, hfb] at hn
    simp at hn
  | none =>
    simp only [next, hfb] at hn
    cases hl : s1.found.getLast? with
    | none =>
      rw [hl] at hn
      simp at hn
    | some x =>
      rw [hl] at hn
      simp only [Prod.mk.injEq, Option.some.injEq, Except.ok.injEq] at hn
      obtain ⟨hs', hx⟩ := hn
      subst hx
      have hmem : (sp, entry) ∈ s1.found := List.mem_of_mem_getLast? hl
      refine ⟨hgood1.1 (sp, entry) hmem, ?_⟩
      rw [← hs']
      constructor
      · intro pr hpr
        exact hgood1.1 pr ((List.dropLast_sublist s1.found).subset hpr)
      · intro en hen
        exact hgood1.2 en hen

theorem yielded_paths_match_exact_witness :
    patsAll.exactPattern entryGood.path = true ∧
    GoodState patsAll (⟨[], [], []⟩ : IterState) :=
  yielded_paths_match_exact patsAll (initState [[fGood], [precP]]) ⟨[], [], []⟩
    pkgP entryGood (GoodState_init patsAll [[fGood], [precP]]) evalNextOrphan1

/-- C3: the anchor rewrite of Query::run turns the start-of-text anchor
into the literal NUL byte at every nesting depth (no anchor remains after
the rewrite), leaves anchor-free regexes unchanged, and consequently the
query caret slash b i n slash matches the path /bin/ls and does not match
/usr/bin/ls. -/
theorem anchor_rewrite_correct :
    rewriteAnchors Expr.startText = Expr.literalBytes [0] false ∧
    (∀ e : Expr, hasStartText (rewriteAnchors e) = false) ∧
    (∀ e : Expr, hasStartText e = false → rewriteAnchors e = e) ∧
    rewriteAnchors anchoredBin =
      Expr.concat (.cons (.literalBytes [0] false)
        (.cons (.literalBytes [47, 98, 105, 110, 47] false) .nil)) ∧
    isMatch anchoredBin pathBinLs ∧ ¬ isMatch anchoredBin pathUsrBinLs :=
  ⟨rfl, rewriteAnchors_clean, rewriteAnchors_id, rfl,
    anchoredBin_matches, anchoredBin_no_match⟩

theorem anchor_rewrite_correct_witness :
    hasStartText (Expr.literalBytes [47] false) = false ∧
    rewriteAnchors (Expr.literalBytes [47] false) = Expr.literalBytes [47] false :=
  ⟨rfl, anchor_rewrite_correct.2.2.1 (Expr.literalBytes [47] false) rfl⟩

/-- C4 (counterexample): the claim fails as stated, on a database with a
malformed matching record inside a filter-rejected package: the filtered
query skips the bad record (never decoding it) and goes on to yield a
match from the accepted package, while the unfiltered query aborts with
EntryParse on that record, so the filtered result set is not the
unfiltered result set restricted to the bounds. -/
theorem filters_compose_cex :
    (pkgQ, entryGood) ∈ (runQueryP patsHashQ [blockC4] []).1 ∧
    (pkgQ, entryGood) ∉
      ((runQueryP (stripBounds patsHashQ) [blockC4] []).1.filter
        (fun pr => shouldSearch patsHashQ pr.1)) := by
  constructor
  · rw [evalRunC4F]
    simp
  · rw [evalRunC4U]
    simp

/-- C4 (amended): for every database and file-path regex on which the
query without package bounds runs to completion without error, the result
set of the bounded query equals the unbounded result set restricted to
pairs whose store path passes the name bound (pass if absent) and the
hash bound (pass if absent): the two filters compose as an
intersection. -/
theorem filters_compose_on_clean_runs (pats : QueryPatterns) (db : List Block)
    (res : List (StorePath × FileTreeEntry))
    (hU : runQueryP (stripBounds pats) db [] = (res, none)) :
    runQueryP pats db [] = (res.filter (fun pr => shouldSearch pats pr.1), none) :=
  runQueryP_filter pats db [] res hU

theorem filters_compose_on_clean_runs_witness :
    runQueryP patsHashQ [[fGood, precP]] [] =
      ([(pkgP, entryGood)].filter (fun pr => shouldSearch patsHashQ pr.1), none) :=
  filters_compose_on_clean_runs patsHashQ [[fGood, precP]] [(pkgP, entryGood)] evalRunC4W

/-- C5: entries matched with no package marker left in their block are
buffered as orphans and attributed to the first package marker of the
next fetched block: when that package passes the filters every orphan is
prepended to the results with that package as owner, and when it is
rejected all orphans are dropped and the scan resumes after the package
record; concretely, on a database whose block boundary separates a file
entry from its owning package record, the query yields exactly that
match with the correct owner and then ends. -/
theorem orphan_attribution (pats : QueryPatterns) (block : Block)
    (orphans : List FileTreeEntry) (pkg : StorePath) (e : Nat) (st : FPState)
    (ho : orphans ≠ [])
    (hfp : findPackage block FPState.init 0 = .ok (some (pkg, e), st)) :
    (shouldSearch pats pkg = true →
      processBlockP pats block orphans =
        ((orphans.map fun en => (pkg, en)) ++ (scanLoopP pats block 0 st).1,
         (scanLoopP pats block 0 st).2.1, (scanLoopP pats block 0 st).2.2)) ∧
    (shouldSearch pats pkg = false →
      processBlockP pats block orphans = scanLoopP pats block e st) ∧
    next patsAll (initState [[fGood], [precP]]) =
      (⟨[], [], []⟩, some (.ok (pkgP, entryGood))) ∧
    next patsAll ⟨[], [], []⟩ = (⟨[], [], []⟩, none) := by
  refine ⟨?_, ?_, evalNextOrphan1, evalNextOrphan2⟩
  · intro hpass
    rw [processBlockP, if_neg (by simpa [List.isEmpty_iff] using ho), hfp]
    dsimp only
    rw [if_pos hpass]
  · intro hpass
    rw [processBlockP, if_neg (by simpa [List.isEmpty_iff] using ho), hfp]
    dsimp only
    rw [if_neg (by rw [hpass]; simp)]

theorem orphan_attribution_witness :
    processBlockP patsAll [precP] [entryGood] =
      (([entryGood].map fun en => (pkgP, en)) ++
        (scanLoopP patsAll [precP] 0 ⟨some (pkgP, 1), false⟩).1,
       (scanLoopP patsAll [precP] 0 ⟨some (pkgP, 1), false⟩).2.1,
       (scanLoopP patsAll [precP] 0 ⟨some (pkgP, 1), false⟩).2.2) := by
  have hi0 : findIdxFrom isPackageRecord [precP] 0 = some 0 := by
    rw [findIdxFrom]
    decide
  have hpar : parseStorePath ((getRec [precP] 0).drop 2) = some pkgP := by decide
  have hfp : findPackage [precP] FPState.init 0 =
      .ok (some (pkgP, 1), ⟨some (pkgP, 1), false⟩) := by
    show findPackageScan [precP] FPState.init 0 = _
    rw [findPackageScan, if_neg (by decide)]
    simp only [hi0, hpar]
    rfl
  exact (orphan_attribution patsAll [precP] [entryGood] pkgP 1
    ⟨some (pkgP, 1), false⟩ (by decide) hfp).1 rfl

/-- C6: Reader::open fails with UnsupportedFileType carrying exactly the
4 observed bytes when they differ from the magic NIXI, fails with
UnsupportedVersion of the following 8 bytes read as little-endian when
the magic matches but the version is not 1, and otherwise consumes the
12-byte header and returns the reader over the remainder. -/
theorem open_header_validation (bs : List Nat) (hlen : 12 ≤ bs.length) :
    (bs.take 4 ≠ FILE_MAGIC → openDb bs = .error (.UnsupportedFileType (bs.take 4))) ∧
    (bs.take 4 = FILE_MAGIC → leU64 ((bs.drop 4).take 8) ≠ FORMAT_VERSION →
      openDb bs = .error (.UnsupportedVersion (leU64 ((bs.drop 4).take 8)))) ∧
    (bs.take 4 = FILE_MAGIC → leU64 ((bs.drop 4).take 8) = FORMAT_VERSION →
      openDb bs = .ok (bs.drop 12)) := by
  refine ⟨?_, ?_, ?_⟩
  · intro hm
    rw [openDb, if_neg (by omega), if_pos hm]
  · intro hm hv
    rw [openDb, if_neg (by omega), if_neg (by simp [hm]), if_neg (by omega), if_pos hv]
  · intro hm hv
    rw [openDb, if_neg (by omega), if_neg (by simp [hm]), if_neg (by omega),
      if_neg (by simp [hv])]

theorem open_header_validation_witness :
    openDb [78, 73, 88, 73, 1, 0, 0, 0, 0, 0, 0, 0, 42] = .ok [42] :=
  (open_header_validation [78, 73, 88, 73, 1, 0, 0, 0, 0, 0, 0, 0, 42]
    (by decide)).2.2 (by decide) (by decide)

/-- C7 (counterexample): the iterator does not stop after yielding an
error: on a block holding a good match followed by a malformed matching
record, the first next call yields the EntryParse error, and the very
next call still returns the buffered good match as a further item. -/
theorem error_then_stop_cex :
    next patsAll (initState [blockC7]) =
      (⟨[], [(pkgP, entryGood)], []⟩, some (.error (.EntryParse fBad))) ∧
    next patsAll ⟨[], [(pkgP, entryGood)], []⟩ =
      (⟨[], [], []⟩, some (.ok (pkgP, entryGood))) :=
  ⟨evalNextC7a, evalNextC7b⟩

/-- C7 (amended): whenever a step of the query iterator fails, the
iterator yields that error as its current item; iteration is not
terminated, and when matches were already buffered before the error the
following next call returns one of them as a further item. -/
theorem error_yielded_iteration_continues (pats : QueryPatterns) (s s1 : IterState)
    (e : DatabaseError) (hfb : fillBuf pats s = (s1, some e)) :
    next pats s = (s1, some (.error e)) ∧
    (s1.found ≠ [] → ∃ s2 x, next pats s1 = (s2, some (.ok x))) := by
  constructor
  · simp only [next, hfb]
  · intro hne
    have hfb1 : fillBuf pats s1 = (s1, none) :=
      fillBuf_notEmpty pats s1 (by simpa [List.isEmpty_iff] using hne)
    cases hl : s1.found.getLast? with
    | none =>
      exact absurd (List.getLast?_eq_none_iff.mp hl) hne
    | some x =>
      refine ⟨⟨s1.blocks, s1.found.dropLast, s1.foundWithoutPackage⟩, x, ?_⟩
      simp only [next, hfb1, hl]

theorem error_yielded_iteration_continues_witness :
    next patsAll (initState [blockC7]) =
      (⟨[], [(pkgP, entryGood)], []⟩, some (.error (.EntryParse fBad))) ∧
    ((⟨[], [(pkgP, entryGood)], []⟩ : IterState).found ≠ [] →
      ∃ s2 x, next patsAll ⟨[], [(pkgP, entryGood)], []⟩ = (s2, some (.ok x))) :=
  error_yielded_iteration_continues patsAll (initState [blockC7])
    ⟨[], [(pkgP, entryGood)], []⟩ (.EntryParse fBad) evalFillC7

/-- C8: the owning package of a match is the one decoded at the first
package marker at or after the match end (the uncached forward scan
pureFindPackage), and the per-block cache is an optimization only: the
scan loop started with a fresh find_package state computes exactly the
uncached scan, and any non-decreasing sequence of find_package queries
from the fresh state returns the same answers as the uncached scan. -/
theorem find_package_cache_equiv :
    (∀ (pats : QueryPatterns) (block : Block) (pos : Nat),
      scanLoopP pats block pos FPState.init = scanPure pats block pos) ∧
    (∀ (block : Block) (offs : List Nat), List.Chain' (· ≤ ·) offs →
      findPackageRun block FPState.init offs = pureFindRun block offs) :=
  ⟨scanLoopP_init_eq_pure, findPackageRun_init⟩

theorem find_package_cache_equiv_witness :
    findPackageRun blockC7 FPState.init [1, 1, 3] = pureFindRun blockC7 [1, 1, 3] :=
  find_package_cache_equiv.2 blockC7 [1, 1, 3] (by simp [List.chain'_cons])

/-- C9: the scan never emits a zero-width match: every buffered result or
orphan is a whole decoded record that passed the exact-pattern re-check;
and the scan position strictly advances past each matched record (grep
only reports whole lines inside the block), so on a finite block the scan
terminates, with at most one buffered entry per remaining record. -/
theorem scan_advances_and_bounded (pats : QueryPatterns) (block : Block) (pos : Nat) :
    (∀ j, findIdxFrom pats.pattern block pos = some j → pos < j + 1 ∧ j < block.length) ∧
    (scanPure pats block pos).1.length + (scanPure pats block pos).2.1.length ≤
      block.length - pos ∧
    (∀ pr ∈ (scanPure pats block pos).1, ∃ j, pos ≤ j ∧ j < block.length ∧
      FileTreeEntry.decode (getRec block j) = some pr.2 ∧
      pats.exactPattern pr.2.path = true) ∧
    (∀ en ∈ (scanPure pats block pos).2.1, ∃ j, pos ≤ j ∧ j < block.length ∧
      FileTreeEntry.decode (getRec block j) = some en ∧
      pats.exactPattern en.path = true) := by
  refine ⟨?_, scanPure_bound pats block block.length pos (by omega),
    (scanPure_src pats block block.length pos (by omega)).1,
    (scanPure_src pats block block.length pos (by omega)).2⟩
  intro j hj
  obtain ⟨h1, h2, -⟩ := findIdxFrom_bounds hj
  omega

theorem scan_advances_and_bounded_witness :
    0 < 0 + 1 ∧ 0 < ([fGood] : Block).length :=
  (scan_advances_and_bounded patsAll [fGood] 0).1 0
    (show findIdxFrom (fun _ => true) [fGood] 0 = some 0 by rw [findIdxFrom_true]; decide)

/-- C10: the package bounds are applied before a matched record is
decoded: a match whose owning package is known within the block and
rejected is skipped by jumping to the end of that package, an equation
independent of the record bytes, so they are never decoded; concretely, a
malformed matching record inside a hash-rejected package raises no error,
while the same record in an accepted package raises EntryParse. -/
theorem filter_skips_decode (pats : QueryPatterns) (block : Block) (j e : Nat)
    (pkg : StorePath)
    (hpat : pats.pattern (getRec block j) = true)
    (hrec : isPackageRecord (getRec block j) = false)
    (hfp : pureFindPackage block (j + 1) = .ok (some (pkg, e)))
    (hpass : shouldSearch pats pkg = false) :
    (scanPure pats block j = scanPure pats block e) ∧
    runQueryP patsHashQ [blockC10] [] = ([], none) ∧
    runQueryP patsHashP [blockC10] [] = ([], some (.EntryParse fBad)) := by
  refine ⟨?_, evalRunC10R, evalRunC10A⟩
  have hb := pureFindPackage_some hfp
  have hjlen : j < block.length := by omega
  exact scanPure_reject (findIdxFrom_self hjlen hpat) hrec hfp hpass

theorem filter_skips_decode_witness :
    scanPure patsHashQ blockC10 0 = scanPure patsHashQ blockC10 2 := by
  have hi1 : findIdxFrom isPackageRecord blockC10 1 = some 1 := by
    rw [findIdxFrom]
    decide
  have hfp : pureFindPackage blockC10 1 = .ok (some (pkgP, 2)) :=
    pureFindPackage_eval_some hi1 (by decide)
  exact (filter_skips_decode patsHashQ blockC10 0 2 pkgP rfl (by decide) hfp
    (by decide)).1

end NixIndex
